import Mathlib

set_option maxRecDepth 10000

/-!
Verification of the OUTIL-EXIF-IMAGE geotagging tool.

The repository ships the Next.js frontend (ImageUploader, AddressInput,
FormatSelector, the Home page, and the API client) as TypeScript source;
those are embedded directly below.  The backend core — the coordinate
codec, the GPS metadata directory builder, the three container embedders
and the orchestrating pipeline — is documented in the specification but
its Python source is not part of the shown tree, so those components are
modelled from the specification, faithful to its words; each such
definition carries a doc comment saying so.

Buffers are lists of byte values (`List Nat`, each element < 256);
decimal-degree coordinates are rationals (`ℚ`).
-/

namespace ExifTool

/-! ### Byte-level utilities -/

/-- Big-endian 16-bit serialization of a natural number (low 16 bits). -/
def writeBE16 (n : Nat) : List Nat :=
  [n / 2 ^ 8 % 256, n % 256]

/-- Big-endian 32-bit serialization of a natural number (low 32 bits). -/
def writeBE32 (n : Nat) : List Nat :=
  [n / 2 ^ 24 % 256, n / 2 ^ 16 % 256, n / 2 ^ 8 % 256, n % 256]

/-- Little-endian 32-bit serialization of a natural number (low 32 bits). -/
def writeLE32 (n : Nat) : List Nat :=
  [n % 256, n / 2 ^ 8 % 256, n / 2 ^ 16 % 256, n / 2 ^ 24 % 256]

/-- Read a big-endian 16-bit value at offset `i` of a buffer. -/
def readBE16 (l : List Nat) (i : Nat) : Nat :=
  l.getD i 0 * 256 + l.getD (i + 1) 0

/-- Read a big-endian 32-bit value at offset `i` of a buffer. -/
def readBE32 (l : List Nat) (i : Nat) : Nat :=
  ((l.getD i 0 * 256 + l.getD (i + 1) 0) * 256 + l.getD (i + 2) 0) * 256
    + l.getD (i + 3) 0

/-- Read a little-endian 32-bit value at offset `i` of a buffer. -/
def readLE32 (l : List Nat) (i : Nat) : Nat :=
  ((l.getD (i + 3) 0 * 256 + l.getD (i + 2) 0) * 256 + l.getD (i + 1) 0) * 256
    + l.getD i 0

/-- Recombine four big-endian byte values. -/
def beVal4 (a b c d : Nat) : Nat :=
  ((a * 256 + b) * 256 + c) * 256 + d

/-- Recombine four little-endian byte values. -/
def leVal4 (a b c d : Nat) : Nat :=
  ((d * 256 + c) * 256 + b) * 256 + a

/-! ### CoordinateCodec (modelled from the spec, §4.1) -/

/-- Axis selector for `toDMS`. -/
inductive Axis
  | lat
  | lon
deriving DecidableEq, Repr

/-- Hemisphere reference carrying the sign discarded by the unsigned
magnitude: `N`/`S` for latitude, `E`/`W` for longitude. -/
inductive Ref
  | N
  | S
  | E
  | W
deriving DecidableEq, Repr

/-- Codec-level error taxonomy (spec §7): out-of-range coordinate input. -/
inductive CodecError
  | invalidCoordinate
deriving DecidableEq, Repr

/-- The fixed seconds-precision denominator the codec uses when encoding
the seconds component as a rational (spec §4.1 recommends 1,000,000). -/
def secondsDenominator : Nat := 1000000

/-- Degrees-minutes-seconds triple: unsigned degree and minute integers
plus the seconds numerator over the fixed `secondsDenominator`. -/
structure DMS where
  degrees : Nat
  minutes : Nat
  secondsNum : Nat
deriving DecidableEq, Repr

/-- Modelled from the spec: `toDMS` of the CoordinateCodec (§4.1), whose
backend source (`services/exif_handler.py`) is not in the shown tree.
Rejects latitude magnitude above 90 and longitude magnitude above 180
with `InvalidCoordinate`; otherwise takes the absolute magnitude, splits
it into whole degrees, whole minutes and decimal seconds, and encodes the
seconds as `round(secondsDecimal * secondsDenominator)` over the fixed
denominator.  The hemisphere reference keeps the discarded sign, with the
positive convention for an input of exactly 0. -/
def toDMS (x : ℚ) (axis : Axis) : Except CodecError (DMS × Ref) :=
  let bound : ℚ := match axis with
    | .lat => 90
    | .lon => 180
  if |x| > bound then
    .error .invalidCoordinate
  else
    let m : ℚ := |x|
    let d : Nat := (⌊m⌋).toNat
    let mi : Nat := (⌊m * 60⌋ - 60 * ⌊m⌋).toNat
    let secDec : ℚ := m * 3600 - 60 * (⌊m * 60⌋ : ℚ)
    let num : Nat := (round (secDec * (secondsDenominator : ℚ))).toNat
    let ref : Ref := match axis with
      | .lat => if 0 ≤ x then .N else .S
      | .lon => if 0 ≤ x then .E else .W
    .ok (⟨d, mi, num⟩, ref)

/-- The hemisphere reference the specification prescribes for a given
input and axis: `N`/`E` for a nonnegative input (the positive convention
covering exactly 0), `S`/`W` otherwise. -/
def expectedRef (x : ℚ) : Axis → Ref
  | .lat => if 0 ≤ x then .N else .S
  | .lon => if 0 ≤ x then .E else .W

/-- Decidable equality for `Except` values, used to evaluate the models
on concrete inputs. -/
instance {ε α : Type _} [DecidableEq ε] [DecidableEq α] :
    DecidableEq (Except ε α) := fun x y =>
  match x, y with
  | .ok a, .ok b =>
    if h : a = b then .isTrue (by rw [h])
    else .isFalse (fun hc => h (Except.ok.inj hc))
  | .error a, .error b =>
    if h : a = b then .isTrue (by rw [h])
    else .isFalse (fun hc => h (Except.error.inj hc))
  | .ok _, .error _ => .isFalse (fun hc => Except.noConfusion hc)
  | .error _, .ok _ => .isFalse (fun hc => Except.noConfusion hc)

/-- Modelled from the spec: the reverse operation `fromDMS` (§4.1),
reconstructing signed decimal degrees from the magnitude triple and the
hemisphere reference (the `N`/`E` references select the positive sign). -/
def fromDMS (dms : DMS) (ref : Ref) : ℚ :=
  let sign : ℚ := match ref with
    | .N => 1
    | .E => 1
    | .S => -1
    | .W => -1
  sign * ((dms.degrees : ℚ) + (dms.minutes : ℚ) / 60
    + ((dms.secondsNum : ℚ) / (secondsDenominator : ℚ)) / 3600)

/-! ### MetadataDirectoryBuilder data model (modelled from the spec, §3 and §4.2) -/

/-- An EXIF rational: unsigned 32-bit numerator/denominator pair. -/
structure ExifRational where
  num : Nat
  den : Nat
deriving DecidableEq, Repr

/-- Typed payload of a metadata entry (spec §3: enum
{byte, ascii, short, long, rational} with a typed value array). -/
inductive TagValue
  | byteV (bs : List Nat)
  | asciiV (bs : List Nat)
  | shortV (ns : List Nat)
  | longV (ns : List Nat)
  | ratV (rs : List ExifRational)
deriving DecidableEq, Repr

/-- TIFF type code of a typed value (byte 1, ascii 2, short 3, long 4,
rational 5). -/
def TagValue.typeCode : TagValue → Nat
  | .byteV _ => 1
  | .asciiV _ => 2
  | .shortV _ => 3
  | .longV _ => 4
  | .ratV _ => 5

/-- Element count of a typed value. -/
def TagValue.count : TagValue → Nat
  | .byteV bs => bs.length
  | .asciiV bs => bs.length
  | .shortV ns => ns.length
  | .longV ns => ns.length
  | .ratV rs => rs.length

/-- On-disk byte size of one element of the given TIFF type code. -/
def elemSize (tc : Nat) : Nat :=
  match tc with
  | 1 => 1
  | 2 => 1
  | 3 => 2
  | 4 => 4
  | 5 => 8
  | _ => 0

/-- Serialized value bytes of a typed payload: ascii/byte values raw,
shorts big-endian 16-bit, longs big-endian 32-bit, rationals as
numerator/denominator pairs of big-endian 32-bit words. -/
def TagValue.payloadBytes : TagValue → List Nat
  | .byteV bs => bs
  | .asciiV bs => bs
  | .shortV ns => (ns.map writeBE16).flatten
  | .longV ns => (ns.map writeBE32).flatten
  | .ratV rs => (rs.map (fun r => writeBE32 r.num ++ writeBE32 r.den)).flatten

/-- Well-formedness of a typed value: every element fits the declared
field width of its type (spec §3: rationals are unsigned 32-bit pairs). -/
def TagValue.wfB : TagValue → Bool
  | .byteV bs => bs.all (fun b => decide (b < 2 ^ 8))
  | .asciiV bs => bs.all (fun b => decide (b < 2 ^ 8))
  | .shortV ns => ns.all (fun n => decide (n < 2 ^ 16))
  | .longV ns => ns.all (fun n => decide (n < 2 ^ 32))
  | .ratV rs => rs.all (fun r => decide (r.num < 2 ^ 32) && decide (r.den < 2 ^ 32))

/-- A metadata entry: tag identifier plus typed payload (spec §3). -/
structure MetadataEntry where
  tagId : Nat
  value : TagValue
deriving DecidableEq, Repr

/-- A metadata directory: ordered list of entries; insertion order
defines the on-disk order (spec §3). -/
abbrev MetadataDirectory := List MetadataEntry

/-- Well-formedness of a metadata entry: the tag fits 16 bits and the
element count fits the 32-bit count field. -/
def MetadataEntry.wfB (e : MetadataEntry) : Bool :=
  decide (e.tagId < 2 ^ 16) && decide (e.value.count < 2 ^ 32) && e.value.wfB

/-- Well-formedness of a directory: the entry count fits 16 bits and all
entries are well-formed. -/
def dirWfB (d : MetadataDirectory) : Bool :=
  decide (d.length < 2 ^ 16) && d.all MetadataEntry.wfB

/-- Serialized form of one directory entry: 16-bit tag, 16-bit type
code, 32-bit element count, then the value bytes. -/
def serializeEntry (e : MetadataEntry) : List Nat :=
  writeBE16 e.tagId ++ writeBE16 e.value.typeCode ++ writeBE32 e.value.count
    ++ e.value.payloadBytes

/-- Serialized form of a directory: 16-bit entry count followed by the
entries in insertion order (sequential IFD layout with inline values —
a modelling choice; the spec fixes the typed encodings but not the
value-offset mechanics). -/
def serializeDirectory (d : MetadataDirectory) : List Nat :=
  writeBE16 d.length ++ (d.map serializeEntry).flatten

/-- Parse a big-endian 16-bit sequence back into its element list. -/
def parseShorts : List Nat → Option (List Nat)
  | [] => some []
  | a :: b :: rest => do
      let ns ← parseShorts rest
      some ((a * 256 + b) :: ns)
  | _ => none

/-- Parse a big-endian 32-bit sequence back into its element list. -/
def parseLongs : List Nat → Option (List Nat)
  | [] => some []
  | a :: b :: c :: d :: rest => do
      let ns ← parseLongs rest
      some (beVal4 a b c d :: ns)
  | _ => none

/-- Parse a sequence of 8-byte rational encodings. -/
def parseRats : List Nat → Option (List ExifRational)
  | [] => some []
  | a :: b :: c :: d :: e :: f :: g :: h :: rest => do
      let rs ← parseRats rest
      some (⟨beVal4 a b c d, beVal4 e f g h⟩ :: rs)
  | _ => none

/-- Parse value bytes of the given TIFF type code back into a typed
payload. -/
def parseValue (tc : Nat) (bytes : List Nat) : Option TagValue :=
  match tc with
  | 1 => some (.byteV bytes)
  | 2 => some (.asciiV bytes)
  | 3 => (parseShorts bytes).map .shortV
  | 4 => (parseLongs bytes).map .longV
  | 5 => (parseRats bytes).map .ratV
  | _ => none

/-- Parse `n` serialized directory entries from a byte sequence. -/
def parseEntries : Nat → List Nat → Option (List MetadataEntry)
  | 0, _ => some []
  | n + 1, t1 :: t2 :: c1 :: c2 :: n1 :: n2 :: n3 :: n4 :: rest =>
      let tc := c1 * 256 + c2
      let len := beVal4 n1 n2 n3 n4 * elemSize tc
      if rest.length < len then none
      else do
        let v ← parseValue tc (rest.take len)
        let es ← parseEntries n (rest.drop len)
        some (⟨t1 * 256 + t2, v⟩ :: es)
  | _ + 1, _ => none

/-- Parse a serialized directory (entry count then entries); trailing
bytes after the last entry are ignored. -/
def parseDirectory (l : List Nat) : Option MetadataDirectory :=
  match l with
  | c1 :: c2 :: rest => parseEntries (c1 * 256 + c2) rest
  | _ => none

/-! ### TIFF blob shared by the three container strategies (spec §4.3) -/

/-- Modelled from the spec: the minimal TIFF header plus the IFD0 that
points at the GPS sub-IFD (spec §4.3 JPEG strategy; PNG and WEBP carry
"the same TIFF-serialized GPS block").  Big-endian byte order mark,
magic 42, IFD0 offset 8; IFD0 holds the single GPSInfo pointer entry
(tag 0x8825, type long, count 1) whose value is the byte offset 26 of
the GPS sub-IFD, then a zero next-IFD offset. -/
def tiffPreamble : List Nat :=
  [0x4D, 0x4D, 0x00, 0x2A] ++ writeBE32 8
    ++ writeBE16 1
    ++ (writeBE16 0x8825 ++ writeBE16 4 ++ writeBE32 1 ++ writeBE32 26)
    ++ writeBE32 0

/-- Modelled from the spec: the TIFF-serialized GPS block — preamble
followed by the serialized GPS directory (spec §4.3). -/
def tiffBlob (d : MetadataDirectory) : List Nat :=
  tiffPreamble ++ serializeDirectory d

/-- Parse a TIFF blob back into its metadata directory. -/
def parseTiffBlob (l : List Nat) : Option MetadataDirectory :=
  if l.take 26 = tiffPreamble then parseDirectory (l.drop 26) else none

/-! ### ContainerEmbedder (modelled from the spec, §4.3) -/

/-- Embedder error taxonomy (spec §7). -/
inductive EmbedError
  | malformedContainer
  | unsupportedContainer
  | encodingOverflow
deriving DecidableEq, Repr

/-- The EXIF identifier that opens a JPEG APP1 EXIF payload
("Exif" followed by two NUL bytes). -/
def exifId : List Nat := [0x45, 0x78, 0x69, 0x66, 0x00, 0x00]

/-- The full APP1 payload: EXIF identifier plus the TIFF blob. -/
def app1Payload (d : MetadataDirectory) : List Nat :=
  exifId ++ tiffBlob d

/-- Whether a JPEG marker byte opens a scannable segment with a 2-byte
length field (everything except SOI, EOI, SOS, TEM and the restart
markers, at which the scan stops). -/
def isSegMarker (m : Nat) : Bool :=
  !(m == 0xD8 || m == 0xD9 || m == 0xDA || m == 0x01
    || (0xD0 ≤ m && m ≤ 0xD7))

/-- Modelled from the spec: the JPEG marker-segment scan that removes
every APP1 segment whose payload begins with the EXIF identifier
(spec §4.3: stale/partial directories must not leak through), keeping
all other segments and, from the first non-segment marker (SOS, EOI) on,
the rest of the stream verbatim.  `fuel` bounds the recursion; each step
consumes at least four bytes. -/
def stripGo : Nat → List Nat → Except EmbedError (List Nat)
  | 0, _ => .error .malformedContainer
  | _ + 1, [] => .ok []
  | fuel + 1, x :: rest =>
    if x = 0xFF then
      match rest with
      | m :: rest2 =>
        if isSegMarker m then
          match rest2 with
          | a :: b :: tail =>
            let L := a * 256 + b
            if L < 2 ∨ tail.length < L - 2 then .error .malformedContainer
            else
              let segData := tail.take (L - 2)
              let remainder := tail.drop (L - 2)
              if m = 0xE1 ∧ segData.take 6 = exifId then
                stripGo fuel remainder
              else do
                let s ← stripGo fuel remainder
                .ok (0xFF :: m :: a :: b :: (segData ++ s))
          | _ => .error .malformedContainer
        else .ok (x :: rest)
      | [] => .error .malformedContainer
    else .error .malformedContainer

/-- Strip all EXIF APP1 segments from the byte stream following the SOI
marker. -/
def stripSegs (l : List Nat) : Except EmbedError (List Nat) :=
  stripGo (l.length + 1) l

/-- Modelled from the spec: the JPEG embed strategy (§4.3).  Requires
the SOI marker, removes any pre-existing EXIF APP1 segment, and inserts
a fresh APP1 segment — marker, 2-byte big-endian length counting the two
length bytes themselves, EXIF identifier, TIFF blob — immediately after
SOI, before all other markers; fails with `EncodingOverflow` when the
segment length would not fit its 16-bit field (spec §7). -/
def jpegEmbed (buf : List Nat) (d : MetadataDirectory) :
    Except EmbedError (List Nat) :=
  if buf.take 2 = [0xFF, 0xD8] then do
    let stripped ← stripSegs (buf.drop 2)
    let payload := app1Payload d
    if payload.length + 2 < 2 ^ 16 then
      .ok ([0xFF, 0xD8, 0xFF, 0xE1] ++ writeBE16 (payload.length + 2)
        ++ payload ++ stripped)
    else .error .encodingOverflow
  else .error .unsupportedContainer

/-- Scan the segment stream for the first EXIF APP1 segment and return
its payload. -/
def findExifGo : Nat → List Nat → Option (List Nat)
  | 0, _ => none
  | _ + 1, [] => none
  | fuel + 1, x :: rest =>
    if x = 0xFF then
      match rest with
      | m :: rest2 =>
        if isSegMarker m then
          match rest2 with
          | a :: b :: tail =>
            let L := a * 256 + b
            if L < 2 ∨ tail.length < L - 2 then none
            else
              let segData := tail.take (L - 2)
              if m = 0xE1 ∧ segData.take 6 = exifId then some segData
              else findExifGo fuel (tail.drop (L - 2))
          | _ => none
        else none
      | [] => none
    else none

/-- Modelled from the spec: the JPEG extract strategy (the `extract`
half of the per-container contract, §9): find the first EXIF APP1
segment and parse its TIFF blob back into a directory. -/
def jpegExtract (buf : List Nat) : Option MetadataDirectory :=
  if buf.take 2 = [0xFF, 0xD8] then do
    let payload ← findExifGo (buf.length + 1) (buf.drop 2)
    parseTiffBlob (payload.drop 6)
  else none

/-- Count the EXIF APP1 segments in the scannable segment region. -/
def countExifGo : Nat → List Nat → Nat
  | 0, _ => 0
  | _ + 1, [] => 0
  | fuel + 1, x :: rest =>
    if x = 0xFF then
      match rest with
      | m :: rest2 =>
        if isSegMarker m then
          match rest2 with
          | a :: b :: tail =>
            let L := a * 256 + b
            if L < 2 ∨ tail.length < L - 2 then 0
            else
              (if m = 0xE1 ∧ (tail.take (L - 2)).take 6 = exifId then 1 else 0)
                + countExifGo fuel (tail.drop (L - 2))
          | _ => 0
        else 0
      | [] => 0
    else 0

/-- Number of EXIF APP1 segments carried by a JPEG buffer. -/
def jpegCountExif (buf : List Nat) : Nat :=
  if buf.take 2 = [0xFF, 0xD8] then countExifGo (buf.length + 1) (buf.drop 2)
  else 0

/-! #### PNG strategy -/

/-- The eight-byte PNG file signature. -/
def pngSig : List Nat := [137, 80, 78, 71, 13, 10, 26, 10]

/-- The IHDR chunk type bytes. -/
def ihdrType : List Nat := [73, 72, 68, 82]

/-- The dedicated ancillary chunk type carrying the TIFF-serialized GPS
block ("eXIf"). -/
def exifChunkType : List Nat := [101, 88, 73, 102]

/-- The PNG CRC-32 polynomial, reflected form. -/
def crcPoly : Nat := 0xEDB88320

/-- One bit step of the reflected CRC-32 computation. -/
def crcStepBit (c : Nat) : Nat :=
  if c % 2 = 1 then (c / 2) ^^^ crcPoly else c / 2

/-- Fold one data byte into the CRC-32 accumulator (eight bit steps). -/
def crcUpdate (c b : Nat) : Nat :=
  crcStepBit (crcStepBit (crcStepBit (crcStepBit
    (crcStepBit (crcStepBit (crcStepBit (crcStepBit (c ^^^ b))))))))

/-- Standard PNG CRC-32 (polynomial 0xEDB88320) over a byte sequence. -/
def crc32 (data : List Nat) : Nat :=
  (data.foldl crcUpdate 0xFFFFFFFF) ^^^ 0xFFFFFFFF

/-- Serialize a PNG chunk: 4-byte big-endian data length, type, data,
CRC-32 over chunk-type + chunk-data (spec §4.3). -/
def pngChunk (ty data : List Nat) : List Nat :=
  writeBE32 data.length ++ ty ++ data ++ writeBE32 (crc32 (ty ++ data))

/-- Modelled from the spec: the PNG chunk scan that removes every
pre-existing chunk of the dedicated EXIF type, keeping all other chunks
(spec §4.3). -/
def pngStripGo : Nat → List Nat → Except EmbedError (List Nat)
  | 0, _ => .error .malformedContainer
  | _ + 1, [] => .ok []
  | fuel + 1, l1 :: l2 :: l3 :: l4 :: t1 :: t2 :: t3 :: t4 :: tail =>
    let L := beVal4 l1 l2 l3 l4
    if tail.length < L + 4 then .error .malformedContainer
    else if [t1, t2, t3, t4] = exifChunkType then
      pngStripGo fuel (tail.drop (L + 4))
    else do
      let s ← pngStripGo fuel (tail.drop (L + 4))
      .ok (l1 :: l2 :: l3 :: l4 :: t1 :: t2 :: t3 :: t4
        :: (tail.take (L + 4) ++ s))
  | _ + 1, _ => .error .malformedContainer

/-- Modelled from the spec: the PNG embed strategy (§4.3).  Requires the
PNG signature and a leading IHDR chunk (whose data length is 13 by the
PNG specification), removes any pre-existing EXIF chunk, and inserts the
new chunk — recomputed length field and CRC-32 — immediately after IHDR
and hence before any image-data chunk. -/
def pngEmbed (buf : List Nat) (d : MetadataDirectory) :
    Except EmbedError (List Nat) :=
  if buf.take 8 = pngSig then
    let rest := buf.drop 8
    if readBE32 rest 0 = 13 ∧ (rest.drop 4).take 4 = ihdrType ∧ 25 ≤ rest.length then do
      let stripped ← pngStripGo (rest.length + 1) (rest.drop 25)
      let data := tiffBlob d
      if data.length < 2 ^ 32 then
        .ok (pngSig ++ rest.take 25 ++ pngChunk exifChunkType data ++ stripped)
      else .error .encodingOverflow
    else .error .malformedContainer
  else .error .unsupportedContainer

/-- Scan the PNG chunk sequence for the first EXIF chunk and return its
data. -/
def pngFindGo : Nat → List Nat → Option (List Nat)
  | 0, _ => none
  | _ + 1, [] => none
  | fuel + 1, l1 :: l2 :: l3 :: l4 :: t1 :: t2 :: t3 :: t4 :: tail =>
    let L := beVal4 l1 l2 l3 l4
    if tail.length < L + 4 then none
    else if [t1, t2, t3, t4] = exifChunkType then some (tail.take L)
    else pngFindGo fuel (tail.drop (L + 4))
  | _ + 1, _ => none

/-- Modelled from the spec: the PNG extract strategy — find the first
EXIF chunk and parse its TIFF blob. -/
def pngExtract (buf : List Nat) : Option MetadataDirectory :=
  if buf.take 8 = pngSig then do
    let data ← pngFindGo (buf.length + 1) (buf.drop 8)
    parseTiffBlob data
  else none

/-- Count the EXIF chunks in a PNG chunk sequence. -/
def pngCountGo : Nat → List Nat → Nat
  | 0, _ => 0
  | _ + 1, [] => 0
  | fuel + 1, l1 :: l2 :: l3 :: l4 :: t1 :: t2 :: t3 :: t4 :: tail =>
    let L := beVal4 l1 l2 l3 l4
    if tail.length < L + 4 then 0
    else
      (if [t1, t2, t3, t4] = exifChunkType then 1 else 0)
        + pngCountGo fuel (tail.drop (L + 4))
  | _ + 1, _ => 0

/-- Number of EXIF chunks carried by a PNG buffer. -/
def pngCountExif (buf : List Nat) : Nat :=
  if buf.take 8 = pngSig then pngCountGo (buf.length + 1) (buf.drop 8) else 0

/-! #### WEBP strategy -/

/-- The RIFF container tag. -/
def riffTag : List Nat := [82, 73, 70, 70]

/-- The WEBP format tag. -/
def webpTag : List Nat := [87, 69, 66, 80]

/-- The EXIF sub-chunk tag of a WEBP container. -/
def webpExifTag : List Nat := [69, 88, 73, 70]

/-- Modelled from the spec: the RIFF sub-chunk scan that removes every
pre-existing EXIF sub-chunk, honouring the padding byte of odd-length
sub-chunks (spec §4.3). -/
def webpStripGo : Nat → List Nat → Except EmbedError (List Nat)
  | 0, _ => .error .malformedContainer
  | _ + 1, [] => .ok []
  | fuel + 1, t1 :: t2 :: t3 :: t4 :: l1 :: l2 :: l3 :: l4 :: tail =>
    let L := leVal4 l1 l2 l3 l4
    let padded := L + L % 2
    if tail.length < padded then .error .malformedContainer
    else if [t1, t2, t3, t4] = webpExifTag then
      webpStripGo fuel (tail.drop padded)
    else do
      let s ← webpStripGo fuel (tail.drop padded)
      .ok (t1 :: t2 :: t3 :: t4 :: l1 :: l2 :: l3 :: l4
        :: (tail.take padded ++ s))
  | _ + 1, _ => .error .malformedContainer

/-- Modelled from the spec: the WEBP embed strategy (§4.3).  Requires
the RIFF/WEBP framing, removes any existing EXIF sub-chunk, appends a
new one (4-byte tag, 4-byte little-endian length, payload, padding byte
when the payload length is odd), and rewrites the RIFF total-size field
to the new total byte length (the byte count following the size field). -/
def webpEmbed (buf : List Nat) (d : MetadataDirectory) :
    Except EmbedError (List Nat) :=
  if buf.take 4 = riffTag ∧ (buf.drop 8).take 4 = webpTag ∧ 12 ≤ buf.length then do
    let stripped ← webpStripGo (buf.length + 1) (buf.drop 12)
    let payload := tiffBlob d
    let pad : List Nat := if payload.length % 2 = 1 then [0] else []
    let chunk := webpExifTag ++ writeLE32 payload.length ++ payload ++ pad
    let newBody := stripped ++ chunk
    if 4 + newBody.length < 2 ^ 32 ∧ payload.length < 2 ^ 32 then
      .ok (riffTag ++ writeLE32 (4 + newBody.length) ++ webpTag ++ newBody)
    else .error .encodingOverflow
  else .error .unsupportedContainer

/-- Scan the RIFF sub-chunks for the first EXIF sub-chunk and return its
unpadded payload. -/
def webpFindGo : Nat → List Nat → Option (List Nat)
  | 0, _ => none
  | _ + 1, [] => none
  | fuel + 1, t1 :: t2 :: t3 :: t4 :: l1 :: l2 :: l3 :: l4 :: tail =>
    let L := leVal4 l1 l2 l3 l4
    let padded := L + L % 2
    if tail.length < padded then none
    else if [t1, t2, t3, t4] = webpExifTag then some (tail.take L)
    else webpFindGo fuel (tail.drop padded)
  | _ + 1, _ => none

/-- Modelled from the spec: the WEBP extract strategy — find the first
EXIF sub-chunk and parse its TIFF blob. -/
def webpExtract (buf : List Nat) : Option MetadataDirectory :=
  if buf.take 4 = riffTag ∧ (buf.drop 8).take 4 = webpTag ∧ 12 ≤ buf.length then do
    let data ← webpFindGo (buf.length + 1) (buf.drop 12)
    parseTiffBlob data
  else none

/-- Count the EXIF sub-chunks of a WEBP body. -/
def webpCountGo : Nat → List Nat → Nat
  | 0, _ => 0
  | _ + 1, [] => 0
  | fuel + 1, t1 :: t2 :: t3 :: t4 :: l1 :: l2 :: l3 :: l4 :: tail =>
    let L := leVal4 l1 l2 l3 l4
    let padded := L + L % 2
    if tail.length < padded then 0
    else
      (if [t1, t2, t3, t4] = webpExifTag then 1 else 0)
        + webpCountGo fuel (tail.drop padded)
  | _ + 1, _ => 0

/-- Number of EXIF sub-chunks carried by a WEBP buffer. -/
def webpCountExif (buf : List Nat) : Nat :=
  if buf.take 4 = riffTag ∧ (buf.drop 8).take 4 = webpTag ∧ 12 ≤ buf.length then
    webpCountGo (buf.length + 1) (buf.drop 12)
  else 0

/-- The serialized EXIF sub-chunk a WEBP embed appends: tag, 4-byte
little-endian payload length, payload, and the padding byte of an
odd-length payload. -/
def webpExifChunk (d : MetadataDirectory) : List Nat :=
  webpExifTag ++ writeLE32 (tiffBlob d).length ++ tiffBlob d
    ++ (if (tiffBlob d).length % 2 = 1 then [0] else [])

/-! ### GeotagPipeline (modelled from the spec, §4.4 and §4.5) -/

/-- The closed set of container kinds (spec §9: a tagged variant, not
inheritance). -/
inductive ContainerKind
  | jpeg
  | png
  | webp
deriving DecidableEq, Repr

/-- Pipeline-level error taxonomy (spec §7). -/
inductive PipelineError
  | invalidCoordinate
  | unsupportedSourceFormat
  | decodeFailure
  | unsupportedContainer
  | malformedContainer
  | encodingOverflow
deriving DecidableEq, Repr

/-- Translate an embedder error into the pipeline taxonomy. -/
def EmbedError.toPipelineError : EmbedError → PipelineError
  | .malformedContainer => .malformedContainer
  | .unsupportedContainer => .unsupportedContainer
  | .encodingOverflow => .encodingOverflow

/-- A resolved coordinate pair (spec §3). -/
structure Coordinate where
  latitude : ℚ
  longitude : ℚ

/-- Modelled from the spec: source container detection from the byte
signature (spec §4.5 step 2), failing with `UnsupportedSourceFormat`
when no signature matches (spec §7). -/
def detectKind (buf : List Nat) : Except PipelineError ContainerKind :=
  if buf.take 2 = [0xFF, 0xD8] then .ok .jpeg
  else if buf.take 8 = pngSig then .ok .png
  else if buf.take 4 = riffTag ∧ (buf.drop 8).take 4 = webpTag then .ok .webp
  else .error .unsupportedSourceFormat

/-- ASCII byte of a hemisphere reference letter. -/
def Ref.asciiByte : Ref → Nat
  | .N => 78
  | .S => 83
  | .E => 69
  | .W => 87

/-- Modelled from the spec: `buildGpsDirectory` of the
MetadataDirectoryBuilder (§4.2) — version-id, latitude reference,
latitude rationals, longitude reference, longitude rationals, with
ascending tag identifiers, NUL-terminated ascii references and rational
values as unsigned numerator/denominator pairs. -/
def buildGpsDirectory (latD : DMS) (latR : Ref) (lonD : DMS) (lonR : Ref) :
    MetadataDirectory :=
  [⟨0, .byteV [2, 3, 0, 0]⟩,
   ⟨1, .asciiV [latR.asciiByte, 0]⟩,
   ⟨2, .ratV [⟨latD.degrees, 1⟩, ⟨latD.minutes, 1⟩,
     ⟨latD.secondsNum, secondsDenominator⟩]⟩,
   ⟨3, .asciiV [lonR.asciiByte, 0]⟩,
   ⟨4, .ratV [⟨lonD.degrees, 1⟩, ⟨lonD.minutes, 1⟩,
     ⟨lonD.secondsNum, secondsDenominator⟩]⟩]

/-- Dispatch the per-container embed strategy by a simple match over the
tagged container kind (spec §9). -/
def embedFor : ContainerKind → List Nat → MetadataDirectory →
    Except EmbedError (List Nat)
  | .jpeg => jpegEmbed
  | .png => pngEmbed
  | .webp => webpEmbed

/-- Modelled from the spec: the GeotagPipeline orchestration (§4.5).
The pixel-level transcoder (§4.4) is out of the shown tree and out of
the core's scope; it is passed in as an explicit `codec` collaborator
producing the freshly re-encoded, metadata-free bytes.  Stages run in
the spec's order — coordinate validation, source detection, transcode,
directory build, embed — each failure aborting the remainder; only the
final embedded buffer is ever returned. -/
def GeotagPipeline.run
    (codec : List Nat → ContainerKind → ContainerKind →
      Except PipelineError (List Nat))
    (img : List Nat) (coord : Coordinate) (target : ContainerKind) :
    Except PipelineError (List Nat) := do
  let latR ← (toDMS coord.latitude .lat).mapError
    fun _ => PipelineError.invalidCoordinate
  let lonR ← (toDMS coord.longitude .lon).mapError
    fun _ => PipelineError.invalidCoordinate
  let srcKind ← detectKind img
  let transcoded ← codec img srcKind target
  let dir := buildGpsDirectory latR.1 latR.2 lonR.1 lonR.2
  (embedFor target transcoded dir).mapError EmbedError.toPipelineError

/-! ### Frontend embeddings (from the TypeScript sources under src/) -/

/-- The client's output-format union
(`'jpeg' | 'png' | 'webp'`, src/unnamed/part_002 `ProcessImageRequest`). -/
inductive OutputFormat
  | jpeg
  | png
  | webp
deriving DecidableEq, Repr

/-- The format string sent over the wire and used in the download name. -/
def OutputFormat.str : OutputFormat → List Char
  | .jpeg => "jpeg".toList
  | .png => "png".toList
  | .webp => "webp".toList

/-- One selectable entry of the `FormatSelector` component. -/
structure FormatChoice where
  value : OutputFormat
  label : String
  description : String
deriving DecidableEq, Repr

/-- The `formats` array of `FormatSelector`
(src/frontend/components/AddressInput.tsx, second document). -/
def formats : List FormatChoice :=
  [⟨.jpeg, "JPEG", "Best for photos"⟩,
   ⟨.png, "PNG", "Lossless quality"⟩,
   ⟨.webp, "WEBP", "Modern format"⟩]

/-- A browser `File` as the frontend observes it: name and MIME type. -/
structure JSFile where
  name : List Char
  type : List Char
deriving DecidableEq, Repr

/-- The `file.type.startsWith('image/')` test of `handleDrop`
(src/unnamed/part_000). -/
def isImageFile (f : JSFile) : Bool :=
  "image/".toList.isPrefixOf f.type

/-- The `handleDrop` handler of `ImageUploader` (src/unnamed/part_000): take the
dropped file list, pick the first file whose MIME type starts with
`image/`, and pass it to `onImageSelected`; with no such file nothing is
called.  Returns the resulting selection and whether `onImageSelected`
was invoked. -/
def handleDrop (files : List JSFile) (current : Option JSFile) :
    Option JSFile × Bool :=
  match files.find? isImageFile with
  | some f => (some f, true)
  | none => (current, false)

/-- JavaScript `String.prototype.split` on a single-character separator. -/
def splitOnChar (sep : Char) : List Char → List (List Char)
  | [] => [[]]
  | c :: cs =>
    if c = sep then [] :: splitOnChar sep cs
    else
      match splitOnChar sep cs with
      | [] => [[c]]
      | h :: t => (c :: h) :: t

/-- JavaScript `String.prototype.trim`: strip leading and trailing
whitespace. -/
def jsTrim (l : List Char) : List Char :=
  ((l.dropWhile Char.isWhitespace).reverse.dropWhile Char.isWhitespace).reverse

/-- The auto-download file name of `handleProcess`
(src/unnamed/part_001): `name.split('.')[0] + '_gps.' + format`. -/
def downloadName (fileName : List Char) (fmt : OutputFormat) : List Char :=
  (splitOnChar '.' fileName).headD [] ++ "_gps.".toList ++ fmt.str

/-- The `Home` page state touched by `handleProcess`
(src/unnamed/part_001). -/
structure HomeState where
  selectedImage : Option JSFile
  address : List Char
  format : OutputFormat
  isProcessing : Bool
  processedBlob : Option (List Nat)
  error : Option String
  success : Bool
deriving DecidableEq, Repr

/-- The validation message of `handleProcess`. -/
def missingInputMsg : String := "Please select an image and enter an address"

/-- The fallback failure message of `handleProcess`. -/
def processFailMsg : String := "Failed to process image. Please try again."

/-- Observable outcome of one `handleProcess` run: either the early
return of the input guard, or a completed run (with the api called)
carrying the final state and the name of the triggered auto-download,
if any. -/
inductive ProcessOutcome
  | earlyReturn (s : HomeState)
  | called (s : HomeState) (download : Option (List Char))
deriving DecidableEq, Repr

/-- The `handleProcess` handler of the `Home` page (src/unnamed/part_001).  The
result of the awaited `api.processImage` call is passed in: `.ok blob`
for a successful response, `.error detail` for a rejected one (with the
optional `err.response.data.detail` text). -/
def handleProcess (s : HomeState)
    (apiResult : Except (Option String) (List Nat)) : ProcessOutcome :=
  if s.selectedImage.isNone || (jsTrim s.address).isEmpty then
    .earlyReturn { s with error := some missingInputMsg }
  else
    match s.selectedImage with
    | none => .earlyReturn { s with error := some missingInputMsg }
    | some file =>
      match apiResult with
      | .ok blob =>
        .called
          { s with isProcessing := false, error := none, success := true,
                   processedBlob := some blob }
          (some (downloadName file.name s.format))
      | .error detail =>
        .called
          { s with isProcessing := false,
                   error := some (detail.getD processFailMsg),
                   success := false, processedBlob := none }
          none

/-! ### Concrete demonstration inputs -/

/-- A minimal JPEG buffer: SOI then EOI. -/
def demoJpeg : List Nat := [0xFF, 0xD8, 0xFF, 0xD9]

/-- A minimal PNG buffer: signature, IHDR with 13 zero data bytes,
empty IEND. -/
def demoPng : List Nat :=
  pngSig ++ pngChunk ihdrType (List.replicate 13 0)
    ++ pngChunk [73, 69, 78, 68] []

/-- A minimal WEBP buffer: RIFF header and one "VP8 " sub-chunk of four
zero bytes. -/
def demoWebp : List Nat :=
  riffTag ++ writeLE32 16 ++ webpTag
    ++ ([86, 80, 56, 32] ++ writeLE32 4 ++ [0, 0, 0, 0])

/-- A demonstration GPS directory. -/
def demoDir : MetadataDirectory :=
  buildGpsDirectory ⟨48, 51, 123456⟩ .N ⟨2, 17, 654321⟩ .E

/-- A second demonstration GPS directory, distinct from `demoDir`. -/
def demoDir2 : MetadataDirectory :=
  buildGpsDirectory ⟨33, 51, 987654⟩ .S ⟨151, 12, 555555⟩ .E

/-- The JPEG embed output on the demonstration inputs. -/
def demoJpegOut : List Nat :=
  match jpegEmbed demoJpeg demoDir with
  | .ok o => o
  | .error _ => []

/-- The PNG embed output on the demonstration inputs. -/
def demoPngOut : List Nat :=
  match pngEmbed demoPng demoDir with
  | .ok o => o
  | .error _ => []

/-- The WEBP embed output on the demonstration inputs. -/
def demoWebpOut : List Nat :=
  match webpEmbed demoWebp demoDir with
  | .ok o => o
  | .error _ => []

/-- The JPEG output of re-embedding `demoDir2` over `demoJpegOut`. -/
def demoJpegOut2 : List Nat :=
  match jpegEmbed demoJpegOut demoDir2 with
  | .ok o => o
  | .error _ => []

/-- The PNG output of re-embedding `demoDir2` over `demoPngOut`. -/
def demoPngOut2 : List Nat :=
  match pngEmbed demoPngOut demoDir2 with
  | .ok o => o
  | .error _ => []

/-- The WEBP output of re-embedding `demoDir2` over `demoWebpOut`. -/
def demoWebpOut2 : List Nat :=
  match webpEmbed demoWebpOut demoDir2 with
  | .ok o => o
  | .error _ => []

end ExifTool

namespace ExifTool

/-! ### Byte-level lemmas -/

theorem beVal4_writeBE32 (n : Nat) (h : n < 2 ^ 32) :
    beVal4 (n / 2 ^ 24 % 256) (n / 2 ^ 16 % 256) (n / 2 ^ 8 % 256) (n % 256) = n := by
  simp only [beVal4]
  omega

theorem leVal4_writeLE32 (n : Nat) (h : n < 2 ^ 32) :
    leVal4 (n % 256) (n / 2 ^ 8 % 256) (n / 2 ^ 16 % 256) (n / 2 ^ 24 % 256) = n := by
  simp only [leVal4]
  omega

theorem be16_recompose (n : Nat) (h : n < 2 ^ 16) :
    n / 2 ^ 8 % 256 * 256 + n % 256 = n := by
  omega

/-! ### CoordinateCodec lemmas and claims -/

/-- Unfolding equation of `toDMS` on the latitude axis. -/
theorem toDMS_lat_eq (x : ℚ) :
    toDMS x .lat =
      if 90 < |x| then .error .invalidCoordinate
      else .ok (⟨(⌊|x|⌋).toNat, (⌊|x| * 60⌋ - 60 * ⌊|x|⌋).toNat,
        (round ((|x| * 3600 - 60 * (⌊|x| * 60⌋ : ℚ))
          * (secondsDenominator : ℚ))).toNat⟩,
        if 0 ≤ x then Ref.N else Ref.S) := rfl

/-- Unfolding equation of `toDMS` on the longitude axis. -/
theorem toDMS_lon_eq (x : ℚ) :
    toDMS x .lon =
      if 180 < |x| then .error .invalidCoordinate
      else .ok (⟨(⌊|x|⌋).toNat, (⌊|x| * 60⌋ - 60 * ⌊|x|⌋).toNat,
        (round ((|x| * 3600 - 60 * (⌊|x| * 60⌋ : ℚ))
          * (secondsDenominator : ℚ))).toNat⟩,
        if 0 ≤ x then Ref.E else Ref.W) := rfl

/-- The minute count never goes negative. -/
theorem minutes_sub_nonneg (m : ℚ) : 60 * ⌊m⌋ ≤ ⌊m * 60⌋ := by
  have h1 : ((60 * ⌊m⌋ : ℤ) : ℚ) ≤ m * 60 := by
    push_cast
    have := Int.floor_le m
    nlinarith
  exact Int.le_floor.mpr h1

/-- The decimal-seconds remainder never goes negative. -/
theorem secDec_nonneg (m : ℚ) : 0 ≤ m * 3600 - 60 * (⌊m * 60⌋ : ℚ) := by
  have := Int.floor_le (m * 60)
  nlinarith

/-- The rounded seconds numerator never goes negative. -/
theorem secRound_nonneg (m : ℚ) :
    0 ≤ round ((m * 3600 - 60 * (⌊m * 60⌋ : ℚ)) * (secondsDenominator : ℚ)) := by
  have h0 : (0 : ℚ) ≤ (m * 3600 - 60 * (⌊m * 60⌋ : ℚ)) * (secondsDenominator : ℚ) := by
    have := secDec_nonneg m
    have hD : (0 : ℚ) ≤ (secondsDenominator : ℚ) := by positivity
    nlinarith
  rw [round_eq]
  have : (0 : ℚ) ≤ (m * 3600 - 60 * (⌊m * 60⌋ : ℚ)) * (secondsDenominator : ℚ)
      + 1 / 2 := by linarith
  exact Int.floor_nonneg.mpr this

/-- Elimination form of a successful `toDMS` call: the components it
returns, expressed in whole-multiple form. -/
theorem toDMS_ok_elim (x : ℚ) (axis : Axis) (dms : DMS) (ref : Ref)
    (h : toDMS x axis = .ok (dms, ref)) :
    dms = ⟨(⌊|x|⌋).toNat, (⌊|x| * 60⌋ - 60 * ⌊|x|⌋).toNat,
      (round ((|x| * 3600 - 60 * (⌊|x| * 60⌋ : ℚ))
        * (secondsDenominator : ℚ))).toNat⟩ ∧
    ref = expectedRef x axis := by
  cases axis
  · rw [toDMS_lat_eq] at h
    split at h
    · exact absurd h (by simp)
    · injection h with h1
      injection h1 with h2 h3
      exact ⟨h2.symm, h3.symm⟩
  · rw [toDMS_lon_eq] at h
    split at h
    · exact absurd h (by simp)
    · injection h with h1
      injection h1 with h2 h3
      exact ⟨h2.symm, h3.symm⟩

/-- The remainder-form minute count of the specification equals the
whole-multiple form computed by the codec. -/
theorem floor_remainder_mul_60 (m : ℚ) :
    ⌊(m - (⌊m⌋ : ℚ)) * 60⌋ = ⌊m * 60⌋ - 60 * ⌊m⌋ := by
  have : (m - (⌊m⌋ : ℚ)) * 60 = m * 60 - ((60 * ⌊m⌋ : ℤ) : ℚ) := by
    push_cast
    ring
  rw [this, Int.floor_sub_int]

/-- The remainder-form decimal seconds of the specification equal the
whole-multiple form computed by the codec. -/
theorem secDec_remainder_form (m : ℚ) :
    ((m - (⌊m⌋ : ℚ)) * 60 - (⌊(m - (⌊m⌋ : ℚ)) * 60⌋ : ℚ)) * 60
      = m * 3600 - 60 * (⌊m * 60⌋ : ℚ) := by
  rw [floor_remainder_mul_60]
  push_cast
  ring

/-- C3: for every in-range input and axis, `toDMS` returns magnitude
components `degrees = floor |x|`, `minutes = floor ((|x| - degrees) * 60)`,
and a seconds numerator `round (secondsDecimal * secondsDenominator)`
over the fixed denominator, with reference `N`/`S` on the latitude axis
and `E`/`W` on the longitude axis according to the sign, an input of
exactly 0 getting the positive `N`/`E` convention. -/
theorem toDMS_components (x : ℚ) (axis : Axis) (dms : DMS) (ref : Ref)
    (h : toDMS x axis = .ok (dms, ref)) :
    (dms.degrees : ℤ) = ⌊|x|⌋ ∧
    (dms.minutes : ℤ) = ⌊(|x| - ((⌊|x|⌋ : ℤ) : ℚ)) * 60⌋ ∧
    (dms.secondsNum : ℤ) =
      round (((|x| - ((⌊|x|⌋ : ℤ) : ℚ)) * 60
        - ((⌊(|x| - ((⌊|x|⌋ : ℤ) : ℚ)) * 60⌋ : ℤ) : ℚ)) * 60
        * (secondsDenominator : ℚ)) ∧
    ref = expectedRef x axis := by
  obtain ⟨hdms, href⟩ := toDMS_ok_elim x axis dms ref h
  subst hdms
  refine ⟨?_, ?_, ?_, href⟩
  · exact Int.toNat_of_nonneg (Int.floor_nonneg.mpr (abs_nonneg x))
  · rw [floor_remainder_mul_60]
    exact Int.toNat_of_nonneg (by have := minutes_sub_nonneg |x|; omega)
  · rw [secDec_remainder_form]
    exact Int.toNat_of_nonneg (secRound_nonneg |x|)

/-- Concrete instance of C3 at latitude 5/2. -/
theorem toDMS_components_witness :
    ((⟨2, 30, 0⟩ : DMS).degrees : ℤ) = ⌊|(5 / 2 : ℚ)|⌋ :=
  (toDMS_components (5 / 2) .lat ⟨2, 30, 0⟩ .N (by
    rw [toDMS_lat_eq]
    rw [abs_of_pos (by norm_num : (0 : ℚ) < 5 / 2)]
    rw [if_neg (by norm_num : ¬((90 : ℚ) < 5 / 2))]
    rw [if_pos (by norm_num : (0 : ℚ) ≤ 5 / 2)]
    norm_num [secondsDenominator, round_eq]
    exact ⟨rfl, rfl⟩)).1

/-- C4: `toDMS` rejects latitude outside [-90, 90] and longitude outside
[-180, 180] with `InvalidCoordinate` (no clamping), and succeeds on
every input inside those ranges. -/
theorem toDMS_range_validation :
    (∀ x : ℚ, (x < -90 ∨ 90 < x) → toDMS x .lat = .error .invalidCoordinate) ∧
    (∀ x : ℚ, (x < -180 ∨ 180 < x) → toDMS x .lon = .error .invalidCoordinate) ∧
    (∀ x : ℚ, -90 ≤ x → x ≤ 90 → (toDMS x .lat).isOk = true) ∧
    (∀ x : ℚ, -180 ≤ x → x ≤ 180 → (toDMS x .lon).isOk = true) := by
  refine ⟨fun x hx => ?_, fun x hx => ?_, fun x h1 h2 => ?_, fun x h1 h2 => ?_⟩
  · rw [toDMS_lat_eq, if_pos]
    rcases hx with hx | hx
    · calc (90 : ℚ) < -x := by linarith
        _ ≤ |x| := neg_le_abs x
    · exact lt_of_lt_of_le hx (le_abs_self x)
  · rw [toDMS_lon_eq, if_pos]
    rcases hx with hx | hx
    · calc (180 : ℚ) < -x := by linarith
        _ ≤ |x| := neg_le_abs x
    · exact lt_of_lt_of_le hx (le_abs_self x)
  · rw [toDMS_lat_eq, if_neg (not_lt.mpr (abs_le.mpr ⟨h1, h2⟩))]
    rfl
  · rw [toDMS_lon_eq, if_neg (not_lt.mpr (abs_le.mpr ⟨h1, h2⟩))]
    rfl

/-- Concrete instances of C4: latitude 91 is rejected, latitude 90 and
longitude 180 are accepted. -/
theorem toDMS_range_validation_witness :
    toDMS 91 .lat = .error .invalidCoordinate ∧
    (toDMS 90 .lat).isOk = true ∧ (toDMS 180 .lon).isOk = true :=
  ⟨toDMS_range_validation.1 91 (Or.inr (by norm_num)),
   toDMS_range_validation.2.2.1 90 (by norm_num) (by norm_num),
   toDMS_range_validation.2.2.2 180 (by norm_num) (by norm_num)⟩

/-- The exact magnitude reconstruction identity underlying the
round-trip law. -/
theorem magnitude_decomposition (m : ℚ) :
    ((⌊m⌋ : ℚ)) + ((⌊m * 60⌋ : ℚ) - 60 * (⌊m⌋ : ℚ)) / 60
      + (m * 3600 - 60 * (⌊m * 60⌋ : ℚ)) / 3600 = m := by
  field_simp
  ring

/-- C5: the round-trip law — for every coordinate accepted by `toDMS`,
`fromDMS` reconstructs the input to within half a unit of the fixed
seconds denominator converted back to degrees, the sign being restored
from the hemisphere reference. -/
theorem toDMS_fromDMS_roundtrip (x : ℚ) (axis : Axis) (dms : DMS) (ref : Ref)
    (h : toDMS x axis = .ok (dms, ref)) :
    |fromDMS dms ref - x| ≤ 1 / (2 * (secondsDenominator : ℚ) * 3600) := by
  obtain ⟨hdms, href⟩ := toDMS_ok_elim x axis dms ref h
  have hDpos : (0 : ℚ) < (secondsDenominator : ℚ) := by
    norm_num [secondsDenominator]
  have hdeg : ((dms.degrees : ℚ)) = ((⌊|x|⌋ : ℚ)) := by
    rw [hdms]
    have := Int.toNat_of_nonneg (Int.floor_nonneg.mpr (abs_nonneg x))
    exact_mod_cast this
  have hmin : ((dms.minutes : ℚ)) = ((⌊|x| * 60⌋ : ℚ) - 60 * (⌊|x|⌋ : ℚ)) := by
    rw [hdms]
    have hnn : 0 ≤ ⌊|x| * 60⌋ - 60 * ⌊|x|⌋ := by
      have := minutes_sub_nonneg |x|
      omega
    have := Int.toNat_of_nonneg hnn
    exact_mod_cast this
  have hsecn : ((dms.secondsNum : ℚ))
      = ((round ((|x| * 3600 - 60 * (⌊|x| * 60⌋ : ℚ)) * (secondsDenominator : ℚ)) : ℤ) : ℚ) := by
    rw [hdms]
    have := Int.toNat_of_nonneg (secRound_nonneg |x|)
    exact_mod_cast this
  have hround :
      |((round ((|x| * 3600 - 60 * (⌊|x| * 60⌋ : ℚ)) * (secondsDenominator : ℚ)) : ℤ) : ℚ)
        - (|x| * 3600 - 60 * (⌊|x| * 60⌋ : ℚ)) * (secondsDenominator : ℚ)| ≤ 1 / 2 := by
    rw [abs_sub_comm]
    exact abs_sub_round _
  -- the unsigned reconstruction is within the bound of the magnitude
  have hrecon :
      abs ((dms.degrees : ℚ) + (dms.minutes : ℚ) / 60
        + ((dms.secondsNum : ℚ) / (secondsDenominator : ℚ)) / 3600 - |x|)
        ≤ 1 / (2 * (secondsDenominator : ℚ) * 3600) := by
    have hval :
        (dms.degrees : ℚ) + (dms.minutes : ℚ) / 60
          + ((dms.secondsNum : ℚ) / (secondsDenominator : ℚ)) / 3600 - |x|
          = (((round ((|x| * 3600 - 60 * (⌊|x| * 60⌋ : ℚ)) * (secondsDenominator : ℚ)) : ℤ) : ℚ)
              - (|x| * 3600 - 60 * (⌊|x| * 60⌋ : ℚ)) * (secondsDenominator : ℚ))
            / ((secondsDenominator : ℚ) * 3600) := by
      rw [hdeg, hmin, hsecn]
      have hmagn := magnitude_decomposition |x|
      have hD0 : (secondsDenominator : ℚ) ≠ 0 := ne_of_gt hDpos
      field_simp
      nlinarith [hmagn]
    rw [hval, abs_div,
      abs_of_pos (by positivity : (0 : ℚ) < (secondsDenominator : ℚ) * 3600)]
    rw [div_le_div_iff (by positivity) (by positivity)]
    calc |((round ((|x| * 3600 - 60 * (⌊|x| * 60⌋ : ℚ)) * (secondsDenominator : ℚ)) : ℤ) : ℚ)
          - (|x| * 3600 - 60 * (⌊|x| * 60⌋ : ℚ)) * (secondsDenominator : ℚ)|
          * (2 * (secondsDenominator : ℚ) * 3600)
        ≤ (1 / 2) * (2 * (secondsDenominator : ℚ) * 3600) := by
          have hnn : (0 : ℚ) ≤ 2 * (secondsDenominator : ℚ) * 3600 := by positivity
          exact mul_le_mul_of_nonneg_right hround hnn
      _ = 1 * ((secondsDenominator : ℚ) * 3600) := by ring
  by_cases hx : 0 ≤ x
  · have hmx : |x| = x := abs_of_nonneg hx
    have hpos : fromDMS dms ref
        = (dms.degrees : ℚ) + (dms.minutes : ℚ) / 60
          + ((dms.secondsNum : ℚ) / (secondsDenominator : ℚ)) / 3600 := by
      cases axis <;>
        · rw [href]
          simp only [expectedRef, if_pos hx, fromDMS]
          ring
    rw [hpos]
    rw [hmx] at hrecon
    exact hrecon
  · have hmx : |x| = -x := abs_of_neg (not_le.mp hx)
    have hneg : fromDMS dms ref
        = -((dms.degrees : ℚ) + (dms.minutes : ℚ) / 60
          + ((dms.secondsNum : ℚ) / (secondsDenominator : ℚ)) / 3600) := by
      cases axis <;>
        · rw [href]
          simp only [expectedRef, if_neg hx, fromDMS]
          ring
    rw [hneg]
    have habs : -((dms.degrees : ℚ) + (dms.minutes : ℚ) / 60
          + ((dms.secondsNum : ℚ) / (secondsDenominator : ℚ)) / 3600) - x
        = -(((dms.degrees : ℚ) + (dms.minutes : ℚ) / 60
          + ((dms.secondsNum : ℚ) / (secondsDenominator : ℚ)) / 3600) - |x|) := by
      rw [hmx]
      ring
    rw [habs, abs_neg]
    exact hrecon

/-- Concrete instance of C5 at the Sydney latitude -33.8568. -/
theorem toDMS_fromDMS_roundtrip_witness :
    |fromDMS ⟨33, 51, 24480000⟩ .S - (-338568 / 10000 : ℚ)|
      ≤ 1 / (2 * (secondsDenominator : ℚ) * 3600) :=
  toDMS_fromDMS_roundtrip (-338568 / 10000) .lat ⟨33, 51, 24480000⟩ .S (by
    rw [toDMS_lat_eq]
    rw [abs_of_neg (by norm_num : (-338568 / 10000 : ℚ) < 0)]
    rw [if_neg (by norm_num : ¬((90 : ℚ) < -(-338568 / 10000 : ℚ)))]
    rw [if_neg (by norm_num : ¬((0 : ℚ) ≤ (-338568 / 10000 : ℚ)))]
    norm_num [secondsDenominator, round_eq]
    exact ⟨rfl, rfl, rfl⟩)


/-! ### Serialization round-trip lemmas -/

/-- A flatten of constant-length blocks has predictable length. -/
theorem flatten_map_length_const {α β : Type _} (f : α → List β) (k : Nat)
    (h : ∀ a, (f a).length = k) :
    ∀ l : List α, ((l.map f).flatten).length = l.length * k := by
  intro l
  induction l with
  | nil => simp
  | cons a l ih =>
    simp only [List.map_cons, List.flatten_cons, List.length_append, ih,
      List.length_cons, h a]
    ring

theorem writeBE16_length (n : Nat) : (writeBE16 n).length = 2 := rfl

theorem writeBE32_length (n : Nat) : (writeBE32 n).length = 4 := rfl

theorem writeLE32_length (n : Nat) : (writeLE32 n).length = 4 := rfl

/-- The serialized value bytes occupy exactly count times element size. -/
theorem payloadBytes_length (v : TagValue) :
    v.payloadBytes.length = v.count * elemSize v.typeCode := by
  cases v with
  | byteV bs => simp [TagValue.payloadBytes, TagValue.count, TagValue.typeCode, elemSize]
  | asciiV bs => simp [TagValue.payloadBytes, TagValue.count, TagValue.typeCode, elemSize]
  | shortV ns =>
    simp only [TagValue.payloadBytes, TagValue.count, TagValue.typeCode, elemSize]
    exact flatten_map_length_const writeBE16 2 writeBE16_length ns
  | longV ns =>
    simp only [TagValue.payloadBytes, TagValue.count, TagValue.typeCode, elemSize]
    exact flatten_map_length_const writeBE32 4 writeBE32_length ns
  | ratV rs =>
    simp only [TagValue.payloadBytes, TagValue.count, TagValue.typeCode, elemSize]
    exact flatten_map_length_const
      (fun r => writeBE32 r.num ++ writeBE32 r.den) 8 (fun r => rfl) rs

/-- Parsing inverts the big-endian 16-bit serialization of a list. -/
theorem parseShorts_roundtrip (ns : List Nat) (h : ∀ n ∈ ns, n < 2 ^ 16) :
    parseShorts ((ns.map writeBE16).flatten) = some ns := by
  induction ns with
  | nil => rfl
  | cons n ns ih =>
    simp only [List.map_cons, List.flatten_cons, writeBE16, List.cons_append,
      List.nil_append]
    rw [parseShorts]
    rw [ih (fun m hm => h m (List.mem_cons_of_mem n hm))]
    simp only [Option.bind_eq_bind, Option.some_bind]
    rw [be16_recompose n (h n (List.mem_cons_self n ns))]

/-- Parsing inverts the big-endian 32-bit serialization of a list. -/
theorem parseLongs_roundtrip (ns : List Nat) (h : ∀ n ∈ ns, n < 2 ^ 32) :
    parseLongs ((ns.map writeBE32).flatten) = some ns := by
  induction ns with
  | nil => rfl
  | cons n ns ih =>
    simp only [List.map_cons, List.flatten_cons, writeBE32, List.cons_append,
      List.nil_append]
    rw [parseLongs]
    rw [ih (fun m hm => h m (List.mem_cons_of_mem n hm))]
    simp only [Option.bind_eq_bind, Option.some_bind]
    rw [beVal4_writeBE32 n (h n (List.mem_cons_self n ns))]

/-- Parsing inverts the rational-pair serialization of a list. -/
theorem parseRats_roundtrip (rs : List ExifRational)
    (h : ∀ r ∈ rs, r.num < 2 ^ 32 ∧ r.den < 2 ^ 32) :
    parseRats ((rs.map (fun r => writeBE32 r.num ++ writeBE32 r.den)).flatten)
      = some rs := by
  induction rs with
  | nil => rfl
  | cons r rs ih =>
    have hcons :
        ((r :: rs).map (fun q => writeBE32 q.num ++ writeBE32 q.den)).flatten
          = r.num / 2 ^ 24 % 256 :: r.num / 2 ^ 16 % 256 :: r.num / 2 ^ 8 % 256
            :: r.num % 256 :: r.den / 2 ^ 24 % 256 :: r.den / 2 ^ 16 % 256
            :: r.den / 2 ^ 8 % 256 :: r.den % 256
            :: (rs.map (fun q => writeBE32 q.num ++ writeBE32 q.den)).flatten := rfl
    rw [hcons]
    simp only [parseRats]
    rw [ih (fun q hq => h q (List.mem_cons_of_mem r hq))]
    simp only [Option.bind_eq_bind, Option.some_bind]
    have h1 := beVal4_writeBE32 r.num (h r (List.mem_cons_self r rs)).1
    have h2 := beVal4_writeBE32 r.den (h r (List.mem_cons_self r rs)).2
    simp only [beVal4] at h1 h2
    simp only [beVal4, h1, h2]

/-- Parsing inverts the typed-value serialization. -/
theorem parseValue_roundtrip (v : TagValue) (h : v.wfB = true) :
    parseValue v.typeCode v.payloadBytes = some v := by
  cases v with
  | byteV bs => rfl
  | asciiV bs => rfl
  | shortV ns =>
    simp only [TagValue.wfB, List.all_eq_true, decide_eq_true_eq] at h
    simp only [TagValue.typeCode, TagValue.payloadBytes, parseValue]
    rw [parseShorts_roundtrip ns h]
    rfl
  | longV ns =>
    simp only [TagValue.wfB, List.all_eq_true, decide_eq_true_eq] at h
    simp only [TagValue.typeCode, TagValue.payloadBytes, parseValue]
    rw [parseLongs_roundtrip ns h]
    rfl
  | ratV rs =>
    simp only [TagValue.wfB, List.all_eq_true, Bool.and_eq_true,
      decide_eq_true_eq] at h
    simp only [TagValue.typeCode, TagValue.payloadBytes, parseValue]
    rw [parseRats_roundtrip rs h]
    rfl

/-- Parsing inverts the entry-list serialization. -/
theorem parseEntries_roundtrip (d : List MetadataEntry)
    (h : ∀ e ∈ d, e.wfB = true) :
    parseEntries d.length ((d.map serializeEntry).flatten) = some d := by
  induction d with
  | nil => rfl
  | cons e es ih =>
    have he := h e (List.mem_cons_self e es)
    simp only [MetadataEntry.wfB, Bool.and_eq_true, decide_eq_true_eq] at he
    obtain ⟨⟨htag, hcnt⟩, hval⟩ := he
    have htc : e.value.typeCode < 2 ^ 16 := by
      cases e.value <;> simp [TagValue.typeCode]
    simp only [List.map_cons, List.flatten_cons, serializeEntry, writeBE16,
      writeBE32, List.cons_append, List.nil_append, List.length_cons]
    simp only [parseEntries]
    rw [be16_recompose e.value.typeCode htc,
      beVal4_writeBE32 e.value.count hcnt,
      be16_recompose e.tagId htag]
    have hplen : e.value.payloadBytes.length
        = e.value.count * elemSize e.value.typeCode :=
      payloadBytes_length e.value
    have hnotlt :
        ¬((e.value.payloadBytes ++ (es.map serializeEntry).flatten).length
          < e.value.count * elemSize e.value.typeCode) := by
      rw [List.length_append, hplen]
      omega
    rw [if_neg hnotlt]
    rw [List.take_left' hplen, List.drop_left' hplen]
    rw [parseValue_roundtrip e.value hval,
      ih (fun q hq => h q (List.mem_cons_of_mem e hq))]
    rfl

/-- Parsing inverts the directory serialization. -/
theorem parseDirectory_roundtrip (d : MetadataDirectory) (h : dirWfB d = true) :
    parseDirectory (serializeDirectory d) = some d := by
  simp only [dirWfB, Bool.and_eq_true, decide_eq_true_eq, List.all_eq_true] at h
  simp only [serializeDirectory, writeBE16, List.cons_append, List.nil_append,
    parseDirectory]
  rw [be16_recompose d.length h.1]
  exact parseEntries_roundtrip d h.2

/-- The TIFF preamble occupies exactly 26 bytes. -/
theorem tiffPreamble_length : tiffPreamble.length = 26 := rfl

/-- Parsing inverts the TIFF blob serialization. -/
theorem parseTiffBlob_roundtrip (d : MetadataDirectory) (h : dirWfB d = true) :
    parseTiffBlob (tiffBlob d) = some d := by
  simp only [parseTiffBlob, tiffBlob]
  rw [List.take_left' tiffPreamble_length, List.drop_left' tiffPreamble_length,
    if_pos rfl]
  exact parseDirectory_roundtrip d h


/-! ### JPEG segment-scan lemmas -/

/-- Unfolding: the scan stops and keeps the stream at a non-segment
marker. -/
theorem stripGo_stop (fuel m : Nat) (rest2 : List Nat)
    (hm : isSegMarker m = false) :
    stripGo (fuel + 1) (0xFF :: m :: rest2) = .ok (0xFF :: m :: rest2) := by
  match rest2 with
  | [] => simp [stripGo, hm]
  | [a] => simp [stripGo, hm]
  | a :: b :: tail => simp [stripGo, hm]

/-- Unfolding: the scan at a segment marker with its length bytes. -/
theorem stripGo_seg (fuel m a b : Nat) (tail : List Nat)
    (hm : isSegMarker m = true) :
    stripGo (fuel + 1) (0xFF :: m :: a :: b :: tail) =
      if a * 256 + b < 2 ∨ tail.length < a * 256 + b - 2 then
        .error .malformedContainer
      else if m = 0xE1 ∧ (tail.take (a * 256 + b - 2)).take 6 = exifId then
        stripGo fuel (tail.drop (a * 256 + b - 2))
      else
        (stripGo fuel (tail.drop (a * 256 + b - 2))).bind
          (fun s => .ok (0xFF :: m :: a :: b :: (tail.take (a * 256 + b - 2) ++ s))) := by
  simp [stripGo, hm]
  rfl

/-- Unfolding: the count stops at a non-segment marker. -/
theorem countExifGo_stop (fuel m : Nat) (rest2 : List Nat)
    (hm : isSegMarker m = false) :
    countExifGo (fuel + 1) (0xFF :: m :: rest2) = 0 := by
  match rest2 with
  | [] => simp [countExifGo, hm]
  | [a] => simp [countExifGo, hm]
  | a :: b :: tail => simp [countExifGo, hm]

/-- Unfolding: the count at a segment marker with its length bytes. -/
theorem countExifGo_seg (fuel m a b : Nat) (tail : List Nat)
    (hm : isSegMarker m = true) :
    countExifGo (fuel + 1) (0xFF :: m :: a :: b :: tail) =
      if a * 256 + b < 2 ∨ tail.length < a * 256 + b - 2 then 0
      else
        (if m = 0xE1 ∧ (tail.take (a * 256 + b - 2)).take 6 = exifId then 1 else 0)
          + countExifGo fuel (tail.drop (a * 256 + b - 2)) := by
  simp [countExifGo, hm]

/-- Master property of the JPEG strip scan: a successful strip never
grows the stream, is a fixed point of further stripping, and leaves no
EXIF APP1 segment behind. -/
theorem stripGo_spec :
    ∀ fuel l s, stripGo fuel l = .ok s →
      s.length ≤ l.length ∧
      (∀ g, s.length < g → stripGo g s = .ok s) ∧
      (∀ g, s.length < g → countExifGo g s = 0) := by
  intro fuel
  induction fuel with
  | zero =>
    intro l s h
    exact absurd h (by simp [stripGo])
  | succ fuel ih =>
    intro l s h
    match l with
    | [] =>
      simp only [stripGo, Except.ok.injEq] at h
      subst h
      refine ⟨Nat.le_refl 0, fun g hg => ?_, fun g hg => ?_⟩
      · match g, hg with
        | g + 1, _ => rfl
      · match g, hg with
        | g + 1, _ => rfl
    | x :: rest =>
      by_cases hx : x = 0xFF
      case neg =>
        have hbad : stripGo (fuel + 1) (x :: rest) = .error .malformedContainer := by
          match rest with
          | [] => simp [stripGo, hx]
          | [m] => simp [stripGo, hx]
          | [m, a] => simp [stripGo, hx]
          | m :: a :: b :: tail => simp [stripGo, hx]
        rw [hbad] at h
        exact absurd h (by simp)
      subst hx
      match rest with
      | [] =>
        simp only [stripGo, if_pos rfl] at h
        exact absurd h (by simp)
      | m :: rest2 =>
        by_cases hm : isSegMarker m = true
        case neg =>
          rw [Bool.not_eq_true] at hm
          rw [stripGo_stop fuel m rest2 hm] at h
          injection h with h
          subst h
          refine ⟨Nat.le_refl _, fun g hg => ?_, fun g hg => ?_⟩
          · match g, hg with
            | g + 1, _ => exact stripGo_stop g m rest2 hm
          · match g, hg with
            | g + 1, _ => exact countExifGo_stop g m rest2 hm
        match rest2 with
        | [] =>
          simp only [stripGo, if_pos rfl, hm, if_true] at h
          exact absurd h (by simp)
        | [a] =>
          simp only [stripGo, if_pos rfl, hm, if_true] at h
          exact absurd h (by simp)
        | a :: b :: tail =>
          rw [stripGo_seg fuel m a b tail hm] at h
          by_cases hlen : a * 256 + b < 2 ∨ tail.length < a * 256 + b - 2
          case pos =>
            rw [if_pos hlen] at h
            exact absurd h (by simp)
          rw [if_neg hlen] at h
          push_neg at hlen
          obtain ⟨hL2, htail⟩ := hlen
          have hseglen : (tail.take (a * 256 + b - 2)).length = a * 256 + b - 2 := by
            rw [List.length_take]
            omega
          have hdrop := List.length_drop (a * 256 + b - 2) tail
          by_cases hex : m = 0xE1 ∧ (tail.take (a * 256 + b - 2)).take 6 = exifId
          case pos =>
            rw [if_pos hex] at h
            obtain ⟨hle, hfix, hcnt⟩ := ih _ _ h
            refine ⟨?_, hfix, hcnt⟩
            simp only [List.length_cons]
            omega
          rw [if_neg hex] at h
          match hrec : stripGo fuel (tail.drop (a * 256 + b - 2)) with
          | .error e =>
            rw [hrec] at h
            exact absurd h (by simp [Except.bind])
          | .ok s' =>
            rw [hrec] at h
            simp only [Except.bind, Except.ok.injEq] at h
            subst h
            obtain ⟨hle, hfix, hcnt⟩ := ih _ _ hrec
            have hlen2 : ¬(a * 256 + b < 2 ∨
                (tail.take (a * 256 + b - 2) ++ s').length < a * 256 + b - 2) := by
              push_neg
              refine ⟨hL2, ?_⟩
              rw [List.length_append, hseglen]
              omega
            refine ⟨?_, fun g hg => ?_, fun g hg => ?_⟩
            · simp only [List.length_cons, List.length_append, hseglen]
              omega
            · match g, hg with
              | g + 1, hg =>
                rw [stripGo_seg g m a b (tail.take (a * 256 + b - 2) ++ s') hm]
                rw [if_neg hlen2]
                rw [List.take_left' hseglen, List.drop_left' hseglen]
                rw [if_neg hex]
                have hg' : s'.length < g := by
                  simp only [List.length_cons, List.length_append, hseglen] at hg
                  omega
                rw [hfix g hg']
                rfl
            · match g, hg with
              | g + 1, hg =>
                rw [countExifGo_seg g m a b (tail.take (a * 256 + b - 2) ++ s') hm]
                rw [if_neg hlen2]
                rw [List.take_left' hseglen, List.drop_left' hseglen]
                rw [if_neg hex]
                have hg' : s'.length < g := by
                  simp only [List.length_cons, List.length_append, hseglen] at hg
                  omega
                rw [hcnt g hg']


/-- The APP1 marker byte opens a scannable segment. -/
theorem isSegMarker_E1 : isSegMarker 0xE1 = true := rfl

/-- The EXIF identifier is the first six bytes of every APP1 payload. -/
theorem app1Payload_take6 (d : MetadataDirectory) :
    (app1Payload d).take 6 = exifId :=
  List.take_left' rfl

/-- Dropping the EXIF identifier of an APP1 payload leaves the TIFF
blob. -/
theorem app1Payload_drop6 (d : MetadataDirectory) :
    (app1Payload d).drop 6 = tiffBlob d :=
  List.drop_left' rfl

/-- Binding an error propagates the error. -/
theorem exceptBind_error {ε α β : Type _} (e : ε) (f : α → Except ε β) :
    (Except.error e >>= f) = Except.error e := rfl

/-- Binding a success applies the continuation. -/
theorem exceptBind_ok {ε α β : Type _} (a : α) (f : α → Except ε β) :
    (Except.ok a >>= f) = f a := rfl

/-- Elimination form of a successful JPEG embed: the input starts with
SOI, the new segment fits its length field, and the output is SOI, the
fresh APP1 segment, then the stripped remainder. -/
theorem jpegEmbed_ok_elim (buf : List Nat) (d : MetadataDirectory)
    (out : List Nat) (h : jpegEmbed buf d = .ok out) :
    buf.take 2 = [0xFF, 0xD8] ∧
    (app1Payload d).length + 2 < 2 ^ 16 ∧
    ∃ stripped, stripSegs (buf.drop 2) = .ok stripped ∧
      out = [0xFF, 0xD8, 0xFF, 0xE1] ++ writeBE16 ((app1Payload d).length + 2)
        ++ app1Payload d ++ stripped := by
  unfold jpegEmbed at h
  by_cases hsoi : buf.take 2 = [0xFF, 0xD8]
  case neg =>
    rw [if_neg hsoi] at h
    exact absurd h (by simp)
  rw [if_pos hsoi] at h
  match hrec : stripSegs (buf.drop 2) with
  | .error e =>
    rw [hrec, exceptBind_error] at h
    exact absurd h (by simp)
  | .ok stripped =>
    rw [hrec, exceptBind_ok] at h
    by_cases hfit : (app1Payload d).length + 2 < 2 ^ 16
    case neg =>
      rw [if_neg hfit] at h
      exact absurd h (by simp)
    rw [if_pos hfit] at h
    injection h with h
    exact ⟨hsoi, hfit, stripped, rfl, h.symm⟩

/-- Unfolding: the EXIF search at a segment marker. -/
theorem findExifGo_seg (fuel m a b : Nat) (tail : List Nat)
    (hm : isSegMarker m = true) :
    findExifGo (fuel + 1) (0xFF :: m :: a :: b :: tail) =
      if a * 256 + b < 2 ∨ tail.length < a * 256 + b - 2 then none
      else if m = 0xE1 ∧ (tail.take (a * 256 + b - 2)).take 6 = exifId then
        some (tail.take (a * 256 + b - 2))
      else findExifGo fuel (tail.drop (a * 256 + b - 2)) := by
  simp [findExifGo, hm]


/-- Reading back a big-endian 16-bit field written after a prefix. -/
theorem readBE16_append (pre rest : List Nat) (n : Nat) (h : n < 2 ^ 16) :
    readBE16 (pre ++ (writeBE16 n ++ rest)) pre.length = n := by
  simp only [readBE16, writeBE16, List.cons_append, List.nil_append]
  rw [List.getD_append_right _ _ _ _ (Nat.le_refl _),
    List.getD_append_right _ _ _ _ (Nat.le_add_right _ 1)]
  simp only [Nat.sub_self, Nat.add_sub_cancel_left, List.getD_cons_zero,
    List.getD_cons_succ]
  exact be16_recompose n h

/-- Reading back a big-endian 32-bit field written after a prefix. -/
theorem readBE32_append (pre rest : List Nat) (n : Nat) (h : n < 2 ^ 32) :
    readBE32 (pre ++ (writeBE32 n ++ rest)) pre.length = n := by
  simp only [readBE32, writeBE32, List.cons_append, List.nil_append]
  rw [List.getD_append_right _ _ _ _ (Nat.le_refl _),
    List.getD_append_right _ _ _ _ (Nat.le_add_right _ 1),
    List.getD_append_right _ _ _ _ (Nat.le_add_right _ 2),
    List.getD_append_right _ _ _ _ (Nat.le_add_right _ 3)]
  simp only [Nat.sub_self, Nat.add_sub_cancel_left, List.getD_cons_zero,
    List.getD_cons_succ]
  have := beVal4_writeBE32 n h
  simp only [beVal4] at this
  exact this

/-- Reading back a little-endian 32-bit field written after a prefix. -/
theorem readLE32_append (pre rest : List Nat) (n : Nat) (h : n < 2 ^ 32) :
    readLE32 (pre ++ (writeLE32 n ++ rest)) pre.length = n := by
  simp only [readLE32, writeLE32, List.cons_append, List.nil_append]
  rw [List.getD_append_right _ _ _ _ (Nat.le_refl _),
    List.getD_append_right _ _ _ _ (Nat.le_add_right _ 1),
    List.getD_append_right _ _ _ _ (Nat.le_add_right _ 2),
    List.getD_append_right _ _ _ _ (Nat.le_add_right _ 3)]
  simp only [Nat.sub_self, Nat.add_sub_cancel_left, List.getD_cons_zero,
    List.getD_cons_succ]
  have := leVal4_writeLE32 n h
  simp only [leVal4] at this
  exact this


/-- The JPEG half of the length-field invariant: the 2-byte big-endian
APP1 length field of an embed output records exactly the measured
payload length (EXIF identifier plus TIFF blob, plus the two length
bytes themselves), the recorded span holds exactly that payload, and the
field's end is exactly where the preserved remainder of the stream
resumes. -/
theorem jpeg_length_field_ok (buf : List Nat) (d : MetadataDirectory)
    (out : List Nat) (h : jpegEmbed buf d = .ok out) :
    readBE16 out 4 = (app1Payload d).length + 2 ∧
    (out.drop 6).take (readBE16 out 4 - 2) = app1Payload d ∧
    ∃ rest, stripSegs (buf.drop 2) = .ok rest ∧
      out.drop (4 + readBE16 out 4) = rest := by
  obtain ⟨hsoi, hfit, stripped, hst, hout⟩ := jpegEmbed_ok_elim buf d out h
  have hread : readBE16 out 4 = (app1Payload d).length + 2 := by
    rw [hout]
    exact readBE16_append [0xFF, 0xD8, 0xFF, 0xE1] (app1Payload d ++ stripped)
      ((app1Payload d).length + 2) hfit
  have hdrop6 :
      ([0xFF, 0xD8, 0xFF, 0xE1] ++ writeBE16 ((app1Payload d).length + 2)
        ++ app1Payload d ++ stripped).drop 6
        = app1Payload d ++ stripped := by
    simp [writeBE16, List.append_assoc]
  refine ⟨hread, ?_, stripped, hst, ?_⟩
  · rw [hread, hout, hdrop6]
    simp only [Nat.add_sub_cancel]
    exact List.take_left _ _
  · rw [hread, hout]
    have harith : 4 + ((app1Payload d).length + 2)
        = 6 + (app1Payload d).length := by omega
    rw [harith, ← List.drop_drop, hdrop6]
    exact List.drop_left _ _


/-- Binding an `Except.error` with `Except.bind` propagates the error. -/
theorem exceptBindF_error {ε α β : Type _} (e : ε) (f : α → Except ε β) :
    (Except.error e : Except ε α).bind f = Except.error e := rfl

/-- Binding an `Except.ok` with `Except.bind` applies the continuation. -/
theorem exceptBindF_ok {ε α β : Type _} (a : α) (f : α → Except ε β) :
    (Except.ok a : Except ε α).bind f = f a := rfl

/-- Binding a present optional value applies the continuation. -/
theorem optionBind_some {α β : Type _} (a : α) (f : α → Option β) :
    (some a >>= f) = f a := rfl

/-- Stripping the stream that follows a fresh embed's SOI removes the
fresh EXIF APP1 segment and returns the preserved remainder unchanged. -/
theorem stripSegs_after_embed (d : MetadataDirectory) (s1 : List Nat)
    (hfit : (app1Payload d).length + 2 < 2 ^ 16)
    (hfix : ∀ g, s1.length < g → stripGo g s1 = .ok s1) :
    stripSegs (0xFF :: 0xE1
        :: ((app1Payload d).length + 2) / 2 ^ 8 % 256
        :: ((app1Payload d).length + 2) % 256
        :: (app1Payload d ++ s1))
      = .ok s1 := by
  unfold stripSegs
  rw [stripGo_seg _ _ _ _ _ isSegMarker_E1]
  rw [be16_recompose _ hfit]
  have hplen : (app1Payload d).length + 2 - 2 = (app1Payload d).length := by omega
  rw [hplen]
  rw [if_neg (by
    push_neg
    constructor
    · omega
    · rw [List.length_append]
      omega)]
  rw [if_pos ⟨rfl, by rw [List.take_left]; exact app1Payload_take6 d⟩]
  rw [List.drop_left]
  apply hfix
  simp only [List.length_cons, List.length_append]
  omega

/-- The JPEG half of the replace invariant: embedding `d2` into a buffer
that already carries an embedded directory `d1` yields a buffer whose
extracted directory is exactly `d2` and which carries exactly one EXIF
APP1 segment. -/
theorem jpeg_replace_ok (buf : List Nat) (d1 d2 : MetadataDirectory)
    (out1 out2 : List Nat) (hwf : dirWfB d2 = true)
    (h1 : jpegEmbed buf d1 = .ok out1) (h2 : jpegEmbed out1 d2 = .ok out2) :
    jpegExtract out2 = some d2 ∧ jpegCountExif out2 = 1 := by
  obtain ⟨hsoi1, hfit1, s1, hst1, hout1⟩ := jpegEmbed_ok_elim buf d1 out1 h1
  obtain ⟨hsoi2, hfit2, s2, hst2, hout2⟩ := jpegEmbed_ok_elim out1 d2 out2 h2
  obtain ⟨hle1, hfix1, hcnt1⟩ :=
    stripGo_spec ((buf.drop 2).length + 1) (buf.drop 2) s1 hst1
  -- the second strip sees the first embed's segment and removes it
  have hshape : out1.drop 2 = 0xFF :: 0xE1
      :: ((app1Payload d1).length + 2) / 2 ^ 8 % 256
      :: ((app1Payload d1).length + 2) % 256
      :: (app1Payload d1 ++ s1) := by
    rw [hout1]
    simp [writeBE16, List.append_assoc]
  have hstrip2 : stripSegs (out1.drop 2) = .ok s1 := by
    rw [hshape]
    exact stripSegs_after_embed d1 s1 hfit1 hfix1
  have hs2 : s2 = s1 := by
    rw [hstrip2] at hst2
    injection hst2 with h
    exact h.symm
  rw [hs2] at hout2
  have hout2' : out2 = 0xFF :: 0xD8 :: 0xFF :: 0xE1
      :: ((app1Payload d2).length + 2) / 2 ^ 8 % 256
      :: ((app1Payload d2).length + 2) % 256
      :: (app1Payload d2 ++ s1) := by
    rw [hout2]
    simp [writeBE16, List.append_assoc]
  have hplen2 : (app1Payload d2).length + 2 - 2 = (app1Payload d2).length := by
    omega
  have hdrop : out2.drop 2 = 0xFF :: 0xE1
      :: ((app1Payload d2).length + 2) / 2 ^ 8 % 256
      :: ((app1Payload d2).length + 2) % 256
      :: (app1Payload d2 ++ s1) := by
    rw [hout2']
    rfl
  have hs1lt : s1.length < out2.length := by
    rw [hout2']
    simp only [List.length_cons, List.length_append]
    omega
  constructor
  · -- extract returns exactly d2
    unfold jpegExtract
    rw [if_pos (by rw [hout2']; rfl)]
    have hfind : findExifGo (out2.length + 1) (out2.drop 2)
        = some (app1Payload d2) := by
      rw [hdrop]
      rw [findExifGo_seg _ _ _ _ _ isSegMarker_E1]
      rw [be16_recompose _ hfit2, hplen2]
      rw [if_neg (by
        push_neg
        constructor
        · omega
        · rw [List.length_append]
          omega)]
      rw [if_pos ⟨rfl, by rw [List.take_left]; exact app1Payload_take6 d2⟩]
      rw [List.take_left]
    rw [hfind, optionBind_some, app1Payload_drop6]
    exact parseTiffBlob_roundtrip d2 hwf
  · -- exactly one EXIF APP1 segment remains
    unfold jpegCountExif
    rw [if_pos (by rw [hout2']; rfl)]
    rw [hdrop]
    rw [countExifGo_seg _ _ _ _ _ isSegMarker_E1]
    rw [be16_recompose _ hfit2, hplen2]
    rw [if_neg (by
      push_neg
      constructor
      · omega
      · rw [List.length_append]
        omega)]
    rw [if_pos ⟨rfl, by rw [List.take_left]; exact app1Payload_take6 d2⟩]
    rw [List.drop_left]
    rw [hcnt1 out2.length hs1lt]


/-! ### PNG chunk-scan lemmas -/

/-- Unfolding: the PNG chunk scan at a full chunk header. -/
theorem pngStripGo_cons8 (fuel l1 l2 l3 l4 t1 t2 t3 t4 : Nat) (tail : List Nat) :
    pngStripGo (fuel + 1) (l1 :: l2 :: l3 :: l4 :: t1 :: t2 :: t3 :: t4 :: tail) =
      if tail.length < beVal4 l1 l2 l3 l4 + 4 then .error .malformedContainer
      else if [t1, t2, t3, t4] = exifChunkType then
        pngStripGo fuel (tail.drop (beVal4 l1 l2 l3 l4 + 4))
      else
        (pngStripGo fuel (tail.drop (beVal4 l1 l2 l3 l4 + 4))).bind
          (fun s => .ok (l1 :: l2 :: l3 :: l4 :: t1 :: t2 :: t3 :: t4
            :: (tail.take (beVal4 l1 l2 l3 l4 + 4) ++ s))) := by
  simp [pngStripGo]
  rfl

/-- Unfolding: the PNG chunk count at a full chunk header. -/
theorem pngCountGo_cons8 (fuel l1 l2 l3 l4 t1 t2 t3 t4 : Nat) (tail : List Nat) :
    pngCountGo (fuel + 1) (l1 :: l2 :: l3 :: l4 :: t1 :: t2 :: t3 :: t4 :: tail) =
      if tail.length < beVal4 l1 l2 l3 l4 + 4 then 0
      else
        (if [t1, t2, t3, t4] = exifChunkType then 1 else 0)
          + pngCountGo fuel (tail.drop (beVal4 l1 l2 l3 l4 + 4)) := by
  simp [pngCountGo]

/-- Unfolding: the PNG chunk search at a full chunk header. -/
theorem pngFindGo_cons8 (fuel l1 l2 l3 l4 t1 t2 t3 t4 : Nat) (tail : List Nat) :
    pngFindGo (fuel + 1) (l1 :: l2 :: l3 :: l4 :: t1 :: t2 :: t3 :: t4 :: tail) =
      if tail.length < beVal4 l1 l2 l3 l4 + 4 then none
      else if [t1, t2, t3, t4] = exifChunkType then
        some (tail.take (beVal4 l1 l2 l3 l4))
      else pngFindGo fuel (tail.drop (beVal4 l1 l2 l3 l4 + 4)) := by
  simp [pngFindGo]

/-- Master property of the PNG chunk scan: a successful strip never
grows the stream, is a fixed point of further stripping, and leaves no
EXIF chunk behind. -/
theorem pngStripGo_spec :
    ∀ fuel l s, pngStripGo fuel l = .ok s →
      s.length ≤ l.length ∧
      (∀ g, s.length < g → pngStripGo g s = .ok s) ∧
      (∀ g, s.length < g → pngCountGo g s = 0) := by
  intro fuel
  induction fuel with
  | zero =>
    intro l s h
    exact absurd h (by simp [pngStripGo])
  | succ fuel ih =>
    intro l s h
    match l with
    | [] =>
      simp only [pngStripGo, Except.ok.injEq] at h
      subst h
      refine ⟨Nat.le_refl 0, fun g hg => ?_, fun g hg => ?_⟩
      · match g, hg with
        | g + 1, _ => rfl
      · match g, hg with
        | g + 1, _ => rfl
    | [_] | [_, _] | [_, _, _] | [_, _, _, _] | [_, _, _, _, _]
    | [_, _, _, _, _, _] | [_, _, _, _, _, _, _] =>
      simp only [pngStripGo] at h
      exact absurd h (by simp)
    | l1 :: l2 :: l3 :: l4 :: t1 :: t2 :: t3 :: t4 :: tail =>
      rw [pngStripGo_cons8] at h
      by_cases hlen : tail.length < beVal4 l1 l2 l3 l4 + 4
      case pos =>
        rw [if_pos hlen] at h
        exact absurd h (by simp)
      rw [if_neg hlen] at h
      push_neg at hlen
      have hseglen : (tail.take (beVal4 l1 l2 l3 l4 + 4)).length
          = beVal4 l1 l2 l3 l4 + 4 := by
        rw [List.length_take]
        omega
      have hdrop := List.length_drop (beVal4 l1 l2 l3 l4 + 4) tail
      by_cases hex : [t1, t2, t3, t4] = exifChunkType
      case pos =>
        rw [if_pos hex] at h
        obtain ⟨hle, hfix, hcnt⟩ := ih _ _ h
        refine ⟨?_, hfix, hcnt⟩
        simp only [List.length_cons]
        omega
      rw [if_neg hex] at h
      match hrec : pngStripGo fuel (tail.drop (beVal4 l1 l2 l3 l4 + 4)) with
      | .error e =>
        rw [hrec, exceptBindF_error] at h
        exact absurd h (by simp)
      | .ok s' =>
        rw [hrec, exceptBindF_ok] at h
        injection h with h
        subst h
        obtain ⟨hle, hfix, hcnt⟩ := ih _ _ hrec
        have hlen2 : ¬((tail.take (beVal4 l1 l2 l3 l4 + 4) ++ s').length
            < beVal4 l1 l2 l3 l4 + 4) := by
          rw [List.length_append, hseglen]
          omega
        refine ⟨?_, fun g hg => ?_, fun g hg => ?_⟩
        · simp only [List.length_cons, List.length_append, hseglen]
          omega
        · match g, hg with
          | g + 1, hg =>
            rw [pngStripGo_cons8]
            rw [if_neg hlen2]
            rw [if_neg hex]
            rw [List.take_left' hseglen, List.drop_left' hseglen]
            have hg' : s'.length < g := by
              simp only [List.length_cons, List.length_append, hseglen] at hg
              omega
            rw [hfix g hg', exceptBindF_ok]
        · match g, hg with
          | g + 1, hg =>
            rw [pngCountGo_cons8]
            rw [if_neg hlen2]
            rw [if_neg hex]
            rw [List.drop_left' hseglen]
            have hg' : s'.length < g := by
              simp only [List.length_cons, List.length_append, hseglen] at hg
              omega
            rw [hcnt g hg']


/-- Destructure the first eight elements of a long-enough list. -/
theorem exists_cons8 {α : Type _} (c : List α) (h : 8 ≤ c.length) :
    ∃ b0 b1 b2 b3 b4 b5 b6 b7 r,
      c = b0 :: b1 :: b2 :: b3 :: b4 :: b5 :: b6 :: b7 :: r := by
  match c with
  | b0 :: b1 :: b2 :: b3 :: b4 :: b5 :: b6 :: b7 :: r =>
    exact ⟨b0, b1, b2, b3, b4, b5, b6, b7, r, rfl⟩
  | [] | [_] | [_, _] | [_, _, _] | [_, _, _, _] | [_, _, _, _, _]
  | [_, _, _, _, _, _] | [_, _, _, _, _, _, _] =>
    simp at h

/-- Elimination form of a successful PNG embed: signature and IHDR
framing hold, the chunk data fits its 32-bit length field, and the
output is signature, the original IHDR chunk, the fresh EXIF chunk,
then the stripped remainder. -/
theorem pngEmbed_ok_elim (buf : List Nat) (d : MetadataDirectory)
    (out : List Nat) (h : pngEmbed buf d = .ok out) :
    buf.take 8 = pngSig ∧
    (readBE32 (buf.drop 8) 0 = 13 ∧ ((buf.drop 8).drop 4).take 4 = ihdrType
      ∧ 25 ≤ (buf.drop 8).length) ∧
    (tiffBlob d).length < 2 ^ 32 ∧
    ∃ stripped,
      pngStripGo ((buf.drop 8).length + 1) ((buf.drop 8).drop 25) = .ok stripped ∧
      out = pngSig ++ (buf.drop 8).take 25
        ++ pngChunk exifChunkType (tiffBlob d) ++ stripped := by
  unfold pngEmbed at h
  by_cases hsig : buf.take 8 = pngSig
  case neg =>
    rw [if_neg hsig] at h
    exact absurd h (by simp)
  rw [if_pos hsig] at h
  by_cases hihdr : readBE32 (buf.drop 8) 0 = 13
      ∧ ((buf.drop 8).drop 4).take 4 = ihdrType ∧ 25 ≤ (buf.drop 8).length
  case neg =>
    rw [if_neg hihdr] at h
    exact absurd h (by simp)
  rw [if_pos hihdr] at h
  match hrec : pngStripGo ((buf.drop 8).length + 1) ((buf.drop 8).drop 25) with
  | .error e =>
    rw [hrec, exceptBind_error] at h
    exact absurd h (by simp)
  | .ok stripped =>
    rw [hrec, exceptBind_ok] at h
    by_cases hfit : (tiffBlob d).length < 2 ^ 32
    case neg =>
      rw [if_neg hfit] at h
      exact absurd h (by simp)
    rw [if_pos hfit] at h
    injection h with h
    exact ⟨hsig, hihdr, hfit, stripped, rfl, h.symm⟩

/-- The EXIF chunk of a PNG embed, written after a 25-byte IHDR-shaped
prefix, begins at a fixed offset; the chunk search skips that prefix. -/
theorem pngFindGo_skip_ihdr (fuel : Nat) (c rest : List Nat)
    (hc : c.length = 25) (h13 : readBE32 c 0 = 13)
    (hty : (c.drop 4).take 4 = ihdrType) :
    pngFindGo (fuel + 2) (c ++ rest) = pngFindGo (fuel + 1) rest := by
  obtain ⟨b0, b1, b2, b3, b4, b5, b6, b7, r, hsplit⟩ :=
    exists_cons8 c (by omega)
  subst hsplit
  have hr : r.length = 17 := by
    simp only [List.length_cons] at hc
    omega
  have h13' : beVal4 b0 b1 b2 b3 = 13 := by
    simpa [readBE16, readBE32, beVal4, List.getD] using h13
  have hty' : [b4, b5, b6, b7] = ihdrType := by
    simpa [List.drop, List.take] using hty
  have hshape : (b0 :: b1 :: b2 :: b3 :: b4 :: b5 :: b6 :: b7 :: r) ++ rest
      = b0 :: b1 :: b2 :: b3 :: b4 :: b5 :: b6 :: b7 :: (r ++ rest) := rfl
  rw [hshape]
  rw [show fuel + 2 = (fuel + 1) + 1 from rfl]
  rw [pngFindGo_cons8]
  rw [h13', hty']
  rw [if_neg (by
    rw [List.length_append]
    omega)]
  rw [if_neg (by decide)]
  congr 1
  have : (13 : Nat) + 4 = 17 := rfl
  rw [this, List.drop_left' hr]

/-- The chunk count likewise skips a 25-byte IHDR-shaped prefix. -/
theorem pngCountGo_skip_ihdr (fuel : Nat) (c rest : List Nat)
    (hc : c.length = 25) (h13 : readBE32 c 0 = 13)
    (hty : (c.drop 4).take 4 = ihdrType) :
    pngCountGo (fuel + 2) (c ++ rest) = pngCountGo (fuel + 1) rest := by
  obtain ⟨b0, b1, b2, b3, b4, b5, b6, b7, r, hsplit⟩ :=
    exists_cons8 c (by omega)
  subst hsplit
  have hr : r.length = 17 := by
    simp only [List.length_cons] at hc
    omega
  have h13' : beVal4 b0 b1 b2 b3 = 13 := by
    simpa [readBE16, readBE32, beVal4, List.getD] using h13
  have hty' : [b4, b5, b6, b7] = ihdrType := by
    simpa [List.drop, List.take] using hty
  have hshape : (b0 :: b1 :: b2 :: b3 :: b4 :: b5 :: b6 :: b7 :: r) ++ rest
      = b0 :: b1 :: b2 :: b3 :: b4 :: b5 :: b6 :: b7 :: (r ++ rest) := rfl
  rw [hshape]
  rw [show fuel + 2 = (fuel + 1) + 1 from rfl]
  rw [pngCountGo_cons8]
  rw [h13', hty']
  rw [if_neg (by
    rw [List.length_append]
    omega)]
  rw [if_neg (by decide)]
  have h17 : (13 : Nat) + 4 = 17 := rfl
  rw [h17, List.drop_left' hr, Nat.zero_add]


/-- A 32-bit read at offset 0 only touches the first four bytes. -/
theorem readBE32_append_left (c l : List Nat) (h : 4 ≤ c.length) :
    readBE32 (c ++ l) 0 = readBE32 c 0 := by
  unfold readBE32
  rw [List.getD_append _ _ _ _ (by omega), List.getD_append _ _ _ _ (by omega),
    List.getD_append _ _ _ _ (by omega), List.getD_append _ _ _ _ (by omega)]

/-- The PNG half of the length-field invariant: the 4-byte big-endian
chunk length field of an embed output records exactly the measured TIFF
blob length, the recorded span holds exactly that blob, and the chunk's
end (length, type, data, CRC) is exactly where the preserved remainder
resumes. -/
theorem png_length_field_ok (buf : List Nat) (d : MetadataDirectory)
    (out : List Nat) (h : pngEmbed buf d = .ok out) :
    readBE32 out 33 = (tiffBlob d).length ∧
    (out.drop 41).take (readBE32 out 33) = tiffBlob d ∧
    ∃ rest, pngStripGo ((buf.drop 8).length + 1) ((buf.drop 8).drop 25) = .ok rest ∧
      out.drop (45 + readBE32 out 33) = rest := by
  obtain ⟨hsig, hihdr, hfit, stripped, hst, hout⟩ := pngEmbed_ok_elim buf d out h
  have ht25 : ((buf.drop 8).take 25).length = 25 := by
    rw [List.length_take]
    have := hihdr.2.2
    omega
  have hpre : (pngSig ++ (buf.drop 8).take 25).length = 33 := by
    rw [List.length_append, ht25]
    rfl
  have hout2 : out = (pngSig ++ (buf.drop 8).take 25)
      ++ (writeBE32 (tiffBlob d).length ++ (exifChunkType ++ (tiffBlob d
        ++ (writeBE32 (crc32 (exifChunkType ++ tiffBlob d)) ++ stripped)))) := by
    rw [hout]
    simp [pngChunk, List.append_assoc]
  have hread : readBE32 out 33 = (tiffBlob d).length := by
    rw [hout2, ← hpre]
    exact readBE32_append _ _ _ hfit
  have hd33 : out.drop 33 = writeBE32 (tiffBlob d).length
      ++ (exifChunkType ++ (tiffBlob d
        ++ (writeBE32 (crc32 (exifChunkType ++ tiffBlob d)) ++ stripped))) := by
    rw [hout2]
    exact List.drop_left' hpre
  have hd41 : out.drop 41 = tiffBlob d
      ++ (writeBE32 (crc32 (exifChunkType ++ tiffBlob d)) ++ stripped) := by
    rw [show (41 : Nat) = 33 + 8 from rfl, ← List.drop_drop, hd33]
    rfl
  refine ⟨hread, ?_, stripped, hst, ?_⟩
  · rw [hread, hd41]
    exact List.take_left _ _
  · rw [hread]
    rw [show 45 + (tiffBlob d).length = 33 + (8 + ((tiffBlob d).length + 4))
      from by omega]
    rw [← List.drop_drop, hd33]
    rw [show (8 + ((tiffBlob d).length + 4) : Nat)
      = 8 + ((tiffBlob d).length + 4) from rfl]
    rw [← List.drop_drop]
    have h8 : (writeBE32 (tiffBlob d).length
        ++ (exifChunkType ++ (tiffBlob d
          ++ (writeBE32 (crc32 (exifChunkType ++ tiffBlob d)) ++ stripped)))).drop 8
        = tiffBlob d
          ++ (writeBE32 (crc32 (exifChunkType ++ tiffBlob d)) ++ stripped) := rfl
    rw [h8, ← List.drop_drop, List.drop_left]
    exact List.drop_left' (writeBE32_length _)


/-- The PNG half of the replace invariant: embedding `d2` into a buffer
that already carries an embedded directory `d1` yields a buffer whose
extracted directory is exactly `d2` and which carries exactly one EXIF
chunk. -/
theorem png_replace_ok (buf : List Nat) (d1 d2 : MetadataDirectory)
    (out1 out2 : List Nat) (hwf : dirWfB d2 = true)
    (h1 : pngEmbed buf d1 = .ok out1) (h2 : pngEmbed out1 d2 = .ok out2) :
    pngExtract out2 = some d2 ∧ pngCountExif out2 = 1 := by
  obtain ⟨hsig1, hihdr1, hfit1, s1, hst1, hout1⟩ := pngEmbed_ok_elim buf d1 out1 h1
  obtain ⟨hsig2, hihdr2, hfit2, s2, hst2, hout2⟩ := pngEmbed_ok_elim out1 d2 out2 h2
  obtain ⟨hle1, hfix1, hcnt1⟩ := pngStripGo_spec _ _ _ hst1
  have ht25 : ((buf.drop 8).take 25).length = 25 := by
    rw [List.length_take]
    have := hihdr1.2.2
    omega
  have hout1R : out1 = pngSig ++ ((buf.drop 8).take 25
      ++ (pngChunk exifChunkType (tiffBlob d1) ++ s1)) := by
    rw [hout1]
    simp [List.append_assoc]
  have hdrop8 : out1.drop 8 = (buf.drop 8).take 25
      ++ (pngChunk exifChunkType (tiffBlob d1) ++ s1) := by
    rw [hout1R]
    exact List.drop_left' rfl
  have htake25 : (out1.drop 8).take 25 = (buf.drop 8).take 25 := by
    rw [hdrop8]
    exact List.take_left' ht25
  have hdrop25 : (out1.drop 8).drop 25
      = pngChunk exifChunkType (tiffBlob d1) ++ s1 := by
    rw [hdrop8]
    exact List.drop_left' ht25
  have hchunk1 : pngChunk exifChunkType (tiffBlob d1) ++ s1
      = (tiffBlob d1).length / 2 ^ 24 % 256 :: (tiffBlob d1).length / 2 ^ 16 % 256
        :: (tiffBlob d1).length / 2 ^ 8 % 256 :: (tiffBlob d1).length % 256
        :: 101 :: 88 :: 73 :: 102
        :: (tiffBlob d1 ++ (writeBE32 (crc32 (exifChunkType ++ tiffBlob d1)) ++ s1)) := by
    simp [pngChunk, exifChunkType, writeBE32, List.append_assoc]
  have hstrip2' : pngStripGo ((out1.drop 8).length + 1) ((out1.drop 8).drop 25)
      = .ok s1 := by
    rw [hdrop25, hchunk1]
    rw [pngStripGo_cons8]
    rw [beVal4_writeBE32 _ hfit1]
    rw [if_neg (by
      simp only [List.length_append, writeBE32_length]
      omega)]
    rw [if_pos (show [101, 88, 73, 102] = exifChunkType by rfl)]
    rw [← List.drop_drop, List.drop_left, List.drop_left' (writeBE32_length _)]
    apply hfix1
    rw [hdrop8]
    simp only [List.length_append, ht25]
    omega
  have hs2 : s2 = s1 := by
    rw [hstrip2'] at hst2
    injection hst2 with h
    exact h.symm
  rw [hs2] at hout2
  have hout2R : out2 = pngSig ++ ((buf.drop 8).take 25
      ++ (pngChunk exifChunkType (tiffBlob d2) ++ s1)) := by
    rw [hout2, htake25]
    simp [List.append_assoc]
  have hdrop8_2 : out2.drop 8 = (buf.drop 8).take 25
      ++ (pngChunk exifChunkType (tiffBlob d2) ++ s1) := by
    rw [hout2R]
    exact List.drop_left' rfl
  have h13c : readBE32 ((buf.drop 8).take 25) 0 = 13 := by
    have h := hihdr2.1
    rw [hdrop8, readBE32_append_left _ _ (by omega)] at h
    exact h
  have htyc : (((buf.drop 8).take 25).drop 4).take 4 = ihdrType := by
    have h := hihdr2.2.1
    rw [hdrop8, List.drop_append_of_le_length (by rw [ht25]; omega),
      List.take_append_of_le_length (by
        rw [List.length_drop, ht25]
        omega)] at h
    exact h
  have hchunk2 : pngChunk exifChunkType (tiffBlob d2) ++ s1
      = (tiffBlob d2).length / 2 ^ 24 % 256 :: (tiffBlob d2).length / 2 ^ 16 % 256
        :: (tiffBlob d2).length / 2 ^ 8 % 256 :: (tiffBlob d2).length % 256
        :: 101 :: 88 :: 73 :: 102
        :: (tiffBlob d2 ++ (writeBE32 (crc32 (exifChunkType ++ tiffBlob d2)) ++ s1)) := by
    simp [pngChunk, exifChunkType, writeBE32, List.append_assoc]
  have hs1len : s1.length + 1 < out2.length := by
    rw [hout2R]
    simp only [List.length_append, ht25, pngSig, pngChunk, writeBE32_length,
      List.length_cons]
    simp [exifChunkType]
    omega
  constructor
  · unfold pngExtract
    rw [if_pos (by rw [hout2R]; exact List.take_left' rfl)]
    rw [show out2.length + 1 = (out2.length - 1) + 2 from by omega]
    rw [hdrop8_2]
    rw [pngFindGo_skip_ihdr (out2.length - 1) _ _ ht25 h13c htyc]
    rw [hchunk2]
    rw [pngFindGo_cons8]
    rw [beVal4_writeBE32 _ hfit2]
    rw [if_neg (by
      simp only [List.length_append, writeBE32_length]
      omega)]
    rw [if_pos (show [101, 88, 73, 102] = exifChunkType by rfl)]
    rw [List.take_left]
    rw [optionBind_some]
    exact parseTiffBlob_roundtrip d2 hwf
  · unfold pngCountExif
    rw [if_pos (by rw [hout2R]; exact List.take_left' rfl)]
    rw [show out2.length + 1 = (out2.length - 1) + 2 from by omega]
    rw [hdrop8_2]
    rw [pngCountGo_skip_ihdr (out2.length - 1) _ _ ht25 h13c htyc]
    rw [hchunk2]
    rw [pngCountGo_cons8]
    rw [beVal4_writeBE32 _ hfit2]
    rw [if_neg (by
      simp only [List.length_append, writeBE32_length]
      omega)]
    rw [if_pos (show [101, 88, 73, 102] = exifChunkType by rfl)]
    rw [← List.drop_drop, List.drop_left, List.drop_left' (writeBE32_length _)]
    rw [hcnt1 (out2.length - 1) (by omega)]


/-! ### WEBP sub-chunk-scan lemmas -/

/-- Unfolding: the WEBP sub-chunk strip at a full sub-chunk header. -/
theorem webpStripGo_cons8 (fuel t1 t2 t3 t4 l1 l2 l3 l4 : Nat) (tail : List Nat) :
    webpStripGo (fuel + 1) (t1 :: t2 :: t3 :: t4 :: l1 :: l2 :: l3 :: l4 :: tail) =
      if tail.length < leVal4 l1 l2 l3 l4 + leVal4 l1 l2 l3 l4 % 2 then
        .error .malformedContainer
      else if [t1, t2, t3, t4] = webpExifTag then
        webpStripGo fuel (tail.drop (leVal4 l1 l2 l3 l4 + leVal4 l1 l2 l3 l4 % 2))
      else
        (webpStripGo fuel (tail.drop (leVal4 l1 l2 l3 l4 + leVal4 l1 l2 l3 l4 % 2))).bind
          (fun s => .ok (t1 :: t2 :: t3 :: t4 :: l1 :: l2 :: l3 :: l4
            :: (tail.take (leVal4 l1 l2 l3 l4 + leVal4 l1 l2 l3 l4 % 2) ++ s))) := by
  simp [webpStripGo]
  rfl

/-- Unfolding: the WEBP sub-chunk search at a full sub-chunk header. -/
theorem webpFindGo_cons8 (fuel t1 t2 t3 t4 l1 l2 l3 l4 : Nat) (tail : List Nat) :
    webpFindGo (fuel + 1) (t1 :: t2 :: t3 :: t4 :: l1 :: l2 :: l3 :: l4 :: tail) =
      if tail.length < leVal4 l1 l2 l3 l4 + leVal4 l1 l2 l3 l4 % 2 then none
      else if [t1, t2, t3, t4] = webpExifTag then
        some (tail.take (leVal4 l1 l2 l3 l4))
      else webpFindGo fuel (tail.drop (leVal4 l1 l2 l3 l4 + leVal4 l1 l2 l3 l4 % 2)) := by
  simp [webpFindGo]

/-- Unfolding: the WEBP sub-chunk count at a full sub-chunk header. -/
theorem webpCountGo_cons8 (fuel t1 t2 t3 t4 l1 l2 l3 l4 : Nat) (tail : List Nat) :
    webpCountGo (fuel + 1) (t1 :: t2 :: t3 :: t4 :: l1 :: l2 :: l3 :: l4 :: tail) =
      if tail.length < leVal4 l1 l2 l3 l4 + leVal4 l1 l2 l3 l4 % 2 then 0
      else
        (if [t1, t2, t3, t4] = webpExifTag then 1 else 0)
          + webpCountGo fuel (tail.drop (leVal4 l1 l2 l3 l4 + leVal4 l1 l2 l3 l4 % 2)) := by
  simp [webpCountGo]

/-- The WEBP strip result does not depend on the fuel, once sufficient. -/
theorem webpStripGo_fuel :
    ∀ f1 f2 l, l.length < f1 → l.length < f2 →
      webpStripGo f1 l = webpStripGo f2 l := by
  intro f1
  induction f1 with
  | zero =>
    intro f2 l h1 h2
    omega
  | succ f1 ih =>
    intro f2 l h1 h2
    match f2, h2 with
    | f2 + 1, h2 =>
      match l with
      | [] => rfl
      | [_] | [_, _] | [_, _, _] | [_, _, _, _] | [_, _, _, _, _]
      | [_, _, _, _, _, _] | [_, _, _, _, _, _, _] =>
        simp [webpStripGo]
      | t1 :: t2 :: t3 :: t4 :: l1 :: l2 :: l3 :: l4 :: tail =>
        rw [webpStripGo_cons8, webpStripGo_cons8]
        by_cases hlen : tail.length < leVal4 l1 l2 l3 l4 + leVal4 l1 l2 l3 l4 % 2
        case pos =>
          rw [if_pos hlen, if_pos hlen]
        rw [if_neg hlen, if_neg hlen]
        have hrl : (tail.drop (leVal4 l1 l2 l3 l4 + leVal4 l1 l2 l3 l4 % 2)).length
            ≤ tail.length := by
          rw [List.length_drop]
          omega
        have hrec := ih f2
          (tail.drop (leVal4 l1 l2 l3 l4 + leVal4 l1 l2 l3 l4 % 2))
          (by simp only [List.length_cons] at h1; omega)
          (by simp only [List.length_cons] at h2; omega)
        by_cases hex : [t1, t2, t3, t4] = webpExifTag
        case pos =>
          rw [if_pos hex, if_pos hex, hrec]
        rw [if_neg hex, if_neg hex, hrec]

/-- The WEBP search result does not depend on the fuel, once sufficient. -/
theorem webpFindGo_fuel :
    ∀ f1 f2 l, l.length < f1 → l.length < f2 →
      webpFindGo f1 l = webpFindGo f2 l := by
  intro f1
  induction f1 with
  | zero =>
    intro f2 l h1 h2
    omega
  | succ f1 ih =>
    intro f2 l h1 h2
    match f2, h2 with
    | f2 + 1, h2 =>
      match l with
      | [] => rfl
      | [_] | [_, _] | [_, _, _] | [_, _, _, _] | [_, _, _, _, _]
      | [_, _, _, _, _, _] | [_, _, _, _, _, _, _] =>
        simp [webpFindGo]
      | t1 :: t2 :: t3 :: t4 :: l1 :: l2 :: l3 :: l4 :: tail =>
        rw [webpFindGo_cons8, webpFindGo_cons8]
        by_cases hlen : tail.length < leVal4 l1 l2 l3 l4 + leVal4 l1 l2 l3 l4 % 2
        case pos =>
          rw [if_pos hlen, if_pos hlen]
        rw [if_neg hlen, if_neg hlen]
        have hrec := ih f2
          (tail.drop (leVal4 l1 l2 l3 l4 + leVal4 l1 l2 l3 l4 % 2))
          (by
            have := List.length_drop (leVal4 l1 l2 l3 l4 + leVal4 l1 l2 l3 l4 % 2) tail
            simp only [List.length_cons] at h1
            omega)
          (by
            have := List.length_drop (leVal4 l1 l2 l3 l4 + leVal4 l1 l2 l3 l4 % 2) tail
            simp only [List.length_cons] at h2
            omega)
        by_cases hex : [t1, t2, t3, t4] = webpExifTag
        case pos =>
          rw [if_pos hex, if_pos hex]
        rw [if_neg hex, if_neg hex, hrec]

/-- The WEBP count does not depend on the fuel, once sufficient. -/
theorem webpCountGo_fuel :
    ∀ f1 f2 l, l.length < f1 → l.length < f2 →
      webpCountGo f1 l = webpCountGo f2 l := by
  intro f1
  induction f1 with
  | zero =>
    intro f2 l h1 h2
    omega
  | succ f1 ih =>
    intro f2 l h1 h2
    match f2, h2 with
    | f2 + 1, h2 =>
      match l with
      | [] => rfl
      | [_] | [_, _] | [_, _, _] | [_, _, _, _] | [_, _, _, _, _]
      | [_, _, _, _, _, _] | [_, _, _, _, _, _, _] =>
        simp [webpCountGo]
      | t1 :: t2 :: t3 :: t4 :: l1 :: l2 :: l3 :: l4 :: tail =>
        rw [webpCountGo_cons8, webpCountGo_cons8]
        by_cases hlen : tail.length < leVal4 l1 l2 l3 l4 + leVal4 l1 l2 l3 l4 % 2
        case pos =>
          rw [if_pos hlen, if_pos hlen]
        rw [if_neg hlen, if_neg hlen]
        have hrec := ih f2
          (tail.drop (leVal4 l1 l2 l3 l4 + leVal4 l1 l2 l3 l4 % 2))
          (by
            have := List.length_drop (leVal4 l1 l2 l3 l4 + leVal4 l1 l2 l3 l4 % 2) tail
            simp only [List.length_cons] at h1
            omega)
          (by
            have := List.length_drop (leVal4 l1 l2 l3 l4 + leVal4 l1 l2 l3 l4 % 2) tail
            simp only [List.length_cons] at h2
            omega)
        rw [hrec]


/-- Master property of the WEBP sub-chunk strip: a successful strip
never grows the stream, further scans cross its kept chunks unchanged
(appending any continuation), and it keeps no EXIF sub-chunk. -/
theorem webpStripGo_spec :
    ∀ fuel l s, webpStripGo fuel l = .ok s →
      s.length ≤ l.length ∧
      (∀ g extra r, (s ++ extra).length < g →
        webpStripGo (extra.length + 1) extra = .ok r →
        webpStripGo g (s ++ extra) = .ok (s ++ r)) ∧
      (∀ g extra, (s ++ extra).length < g →
        webpFindGo g (s ++ extra) = webpFindGo (extra.length + 1) extra) ∧
      (∀ g extra, (s ++ extra).length < g →
        webpCountGo g (s ++ extra) = webpCountGo (extra.length + 1) extra) := by
  intro fuel
  induction fuel with
  | zero =>
    intro l s h
    exact absurd h (by simp [webpStripGo])
  | succ fuel ih =>
    intro l s h
    match l with
    | [] =>
      simp only [webpStripGo, Except.ok.injEq] at h
      subst h
      refine ⟨Nat.le_refl 0, fun g extra r hg hr => ?_, fun g extra hg => ?_,
        fun g extra hg => ?_⟩
      · simp only [List.nil_append] at hg ⊢
        rw [webpStripGo_fuel g (extra.length + 1) extra hg (Nat.lt_succ_self _)]
        rw [hr]
      · simp only [List.nil_append] at hg ⊢
        exact webpFindGo_fuel g (extra.length + 1) extra hg (Nat.lt_succ_self _)
      · simp only [List.nil_append] at hg ⊢
        exact webpCountGo_fuel g (extra.length + 1) extra hg (Nat.lt_succ_self _)
    | [_] | [_, _] | [_, _, _] | [_, _, _, _] | [_, _, _, _, _]
    | [_, _, _, _, _, _] | [_, _, _, _, _, _, _] =>
      simp only [webpStripGo] at h
      exact absurd h (by simp)
    | t1 :: t2 :: t3 :: t4 :: l1 :: l2 :: l3 :: l4 :: tail =>
      rw [webpStripGo_cons8] at h
      by_cases hlen : tail.length < leVal4 l1 l2 l3 l4 + leVal4 l1 l2 l3 l4 % 2
      case pos =>
        rw [if_pos hlen] at h
        exact absurd h (by simp)
      rw [if_neg hlen] at h
      push_neg at hlen
      have hseglen : (tail.take (leVal4 l1 l2 l3 l4 + leVal4 l1 l2 l3 l4 % 2)).length
          = leVal4 l1 l2 l3 l4 + leVal4 l1 l2 l3 l4 % 2 := by
        rw [List.length_take]
        omega
      have hdrop := List.length_drop
        (leVal4 l1 l2 l3 l4 + leVal4 l1 l2 l3 l4 % 2) tail
      by_cases hex : [t1, t2, t3, t4] = webpExifTag
      case pos =>
        rw [if_pos hex] at h
        obtain ⟨hle, happ, hfind, hcnt⟩ := ih _ _ h
        refine ⟨?_, happ, hfind, hcnt⟩
        simp only [List.length_cons]
        omega
      rw [if_neg hex] at h
      match hrec : webpStripGo fuel
          (tail.drop (leVal4 l1 l2 l3 l4 + leVal4 l1 l2 l3 l4 % 2)) with
      | .error e =>
        rw [hrec, exceptBindF_error] at h
        exact absurd h (by simp)
      | .ok s' =>
        rw [hrec, exceptBindF_ok] at h
        injection h with h
        subst h
        obtain ⟨hle, happ, hfind, hcnt⟩ := ih _ _ hrec
        have hshape : ∀ extra : List Nat,
            (t1 :: t2 :: t3 :: t4 :: l1 :: l2 :: l3 :: l4
              :: (tail.take (leVal4 l1 l2 l3 l4 + leVal4 l1 l2 l3 l4 % 2) ++ s'))
              ++ extra
            = t1 :: t2 :: t3 :: t4 :: l1 :: l2 :: l3 :: l4
              :: (tail.take (leVal4 l1 l2 l3 l4 + leVal4 l1 l2 l3 l4 % 2)
                ++ (s' ++ extra)) := by
          intro extra
          simp [List.append_assoc]
        have hlen2 : ∀ extra : List Nat,
            ¬((tail.take (leVal4 l1 l2 l3 l4 + leVal4 l1 l2 l3 l4 % 2)
              ++ (s' ++ extra)).length
                < leVal4 l1 l2 l3 l4 + leVal4 l1 l2 l3 l4 % 2) := by
          intro extra
          rw [List.length_append, hseglen]
          omega
        have hglen : ∀ (extra : List Nat) (g : Nat),
            ((t1 :: t2 :: t3 :: t4 :: l1 :: l2 :: l3 :: l4
              :: (tail.take (leVal4 l1 l2 l3 l4 + leVal4 l1 l2 l3 l4 % 2) ++ s'))
              ++ extra).length < g →
            ∃ g1, g = g1 + 1 ∧ (s' ++ extra).length < g1 := by
          intro extra g hg
          simp only [List.length_append, List.length_cons, hseglen] at hg ⊢
          exact ⟨g - 1, by omega, by omega⟩
        refine ⟨?_, fun g extra r hg hr => ?_, fun g extra hg => ?_,
          fun g extra hg => ?_⟩
        · simp only [List.length_cons, List.length_append, hseglen]
          omega
        · obtain ⟨g1, hgeq, hg1⟩ := hglen extra g hg
          subst hgeq
          rw [hshape extra, webpStripGo_cons8, if_neg (hlen2 extra), if_neg hex]
          rw [List.take_left' hseglen, List.drop_left' hseglen]
          rw [happ g1 extra r hg1 hr, exceptBindF_ok]
          simp [List.append_assoc]
        · obtain ⟨g1, hgeq, hg1⟩ := hglen extra g hg
          subst hgeq
          rw [hshape extra, webpFindGo_cons8, if_neg (hlen2 extra), if_neg hex]
          rw [List.drop_left' hseglen]
          exact hfind g1 extra hg1
        · obtain ⟨g1, hgeq, hg1⟩ := hglen extra g hg
          subst hgeq
          rw [hshape extra, webpCountGo_cons8, if_neg (hlen2 extra), if_neg hex]
          rw [List.drop_left' hseglen]
          rw [hcnt g1 extra hg1, Nat.zero_add]


/-- Folding equation of the appended WEBP EXIF sub-chunk. -/
theorem webpExifChunk_def (d : MetadataDirectory) :
    webpExifTag ++ writeLE32 (tiffBlob d).length ++ tiffBlob d
      ++ (if (tiffBlob d).length % 2 = 1 then [0] else [])
      = webpExifChunk d := rfl

/-- Elimination form of a successful WEBP embed: the RIFF/WEBP framing
holds, the sizes fit their 32-bit fields, and the output is the RIFF
header with a recomputed total size, the stripped body, then the fresh
EXIF sub-chunk. -/
theorem webpEmbed_ok_elim (buf : List Nat) (d : MetadataDirectory)
    (out : List Nat) (h : webpEmbed buf d = .ok out) :
    (buf.take 4 = riffTag ∧ (buf.drop 8).take 4 = webpTag ∧ 12 ≤ buf.length) ∧
    ∃ stripped, webpStripGo (buf.length + 1) (buf.drop 12) = .ok stripped ∧
      4 + (stripped ++ webpExifChunk d).length < 2 ^ 32 ∧
      (tiffBlob d).length < 2 ^ 32 ∧
      out = riffTag ++ writeLE32 (4 + (stripped ++ webpExifChunk d).length)
        ++ webpTag ++ (stripped ++ webpExifChunk d) := by
  unfold webpEmbed at h
  by_cases hframe : buf.take 4 = riffTag ∧ (buf.drop 8).take 4 = webpTag
      ∧ 12 ≤ buf.length
  case neg =>
    rw [if_neg hframe] at h
    exact absurd h (by simp)
  rw [if_pos hframe] at h
  match hrec : webpStripGo (buf.length + 1) (buf.drop 12) with
  | .error e =>
    rw [hrec, exceptBind_error] at h
    exact absurd h (by simp)
  | .ok stripped =>
    rw [hrec, exceptBind_ok] at h
    simp only at h
    rw [webpExifChunk_def] at h
    by_cases hfit : 4 + (stripped ++ webpExifChunk d).length < 2 ^ 32
        ∧ (tiffBlob d).length < 2 ^ 32
    case neg =>
      rw [if_neg hfit] at h
      exact absurd h (by simp)
    rw [if_pos hfit] at h
    injection h with h
    exact ⟨hframe, stripped, rfl, hfit.1, hfit.2, h.symm⟩


/-- Lengths of the RIFF framing pieces. -/
theorem riffTag_length : riffTag.length = 4 := rfl

theorem webpTag_length : webpTag.length = 4 := rfl

theorem webpExifTag_length : webpExifTag.length = 4 := rfl

/-- The WEBP half of the length-field invariant: the little-endian RIFF
total-size field of an embed output records exactly the measured byte
count following the size field, the appended sub-chunk's length field
records exactly the measured TIFF blob length, and the recorded span
holds exactly that blob. -/
theorem webp_length_field_ok (buf : List Nat) (d : MetadataDirectory)
    (out : List Nat) (h : webpEmbed buf d = .ok out) :
    readLE32 out 4 = out.length - 8 ∧
    ∃ stripped, webpStripGo (buf.length + 1) (buf.drop 12) = .ok stripped ∧
      readLE32 out (16 + stripped.length) = (tiffBlob d).length ∧
      (out.drop (20 + stripped.length)).take ((tiffBlob d).length)
        = tiffBlob d := by
  obtain ⟨hframe, stripped, hst, hfitTot, hfitLen, hout⟩ :=
    webpEmbed_ok_elim buf d out h
  have houtR : out = riffTag
      ++ (writeLE32 (4 + (stripped ++ webpExifChunk d).length)
        ++ (webpTag ++ (stripped ++ webpExifChunk d))) := by
    rw [hout]
    simp [List.append_assoc]
  have hlen_out : out.length = 12 + (stripped ++ webpExifChunk d).length := by
    rw [houtR]
    simp only [List.length_append, writeLE32_length, riffTag_length,
      webpTag_length]
    omega
  have hread1 : readLE32 out 4 = 4 + (stripped ++ webpExifChunk d).length := by
    rw [houtR]
    exact readLE32_append riffTag _ _ hfitTot
  have houtR2 : out = (riffTag
      ++ writeLE32 (4 + (stripped ++ webpExifChunk d).length)
      ++ webpTag ++ stripped ++ webpExifTag)
      ++ (writeLE32 (tiffBlob d).length ++ (tiffBlob d
        ++ (if (tiffBlob d).length % 2 = 1 then [0] else []))) := by
    rw [hout]
    simp [webpExifChunk, List.append_assoc]
  have hpre2 : (riffTag
      ++ writeLE32 (4 + (stripped ++ webpExifChunk d).length)
      ++ webpTag ++ stripped ++ webpExifTag).length = 16 + stripped.length := by
    simp only [List.length_append, writeLE32_length, riffTag_length,
      webpTag_length, webpExifTag_length]
    omega
  have hread2 : readLE32 out (16 + stripped.length) = (tiffBlob d).length := by
    rw [houtR2, ← hpre2]
    exact readLE32_append _ _ _ hfitLen
  refine ⟨?_, stripped, hst, hread2, ?_⟩
  · rw [hread1, hlen_out]
    omega
  · rw [show 20 + stripped.length = (16 + stripped.length) + 4 from by omega]
    rw [← List.drop_drop]
    rw [houtR2, List.drop_left' hpre2, List.drop_left' (writeLE32_length _)]
    exact List.take_left _ _


/-- The padding byte makes every serialized WEBP EXIF sub-chunk shape
explicit: tag, length bytes, then payload plus padding. -/
theorem webpExifChunk_shape (d : MetadataDirectory) :
    webpExifChunk d = 69 :: 88 :: 73 :: 70
      :: (tiffBlob d).length % 256 :: (tiffBlob d).length / 2 ^ 8 % 256
      :: (tiffBlob d).length / 2 ^ 16 % 256 :: (tiffBlob d).length / 2 ^ 24 % 256
      :: (tiffBlob d
        ++ (if (tiffBlob d).length % 2 = 1 then [0] else [])) := by
  simp [webpExifChunk, webpExifTag, writeLE32, List.append_assoc]

/-- The payload-plus-padding tail measures exactly the padded length. -/
theorem webp_padded_length (d : MetadataDirectory) :
    (tiffBlob d ++ (if (tiffBlob d).length % 2 = 1 then [0] else [])).length
      = (tiffBlob d).length + (tiffBlob d).length % 2 := by
  rw [List.length_append]
  by_cases hodd : (tiffBlob d).length % 2 = 1
  · rw [if_pos hodd]
    simp [hodd]
  · rw [if_neg hodd]
    simp
    omega

/-- The strip of an empty stream succeeds with any positive fuel. -/
theorem webpStripGo_nil (fuel : Nat) (h : 0 < fuel) :
    webpStripGo fuel [] = .ok [] := by
  match fuel, h with
  | f + 1, _ => rfl

/-- The count of an empty stream is zero. -/
theorem webpCountGo_nil (fuel : Nat) : webpCountGo fuel [] = 0 := by
  match fuel with
  | 0 => rfl
  | f + 1 => rfl

/-- Stripping a fresh WEBP EXIF sub-chunk alone removes it entirely. -/
theorem webpStrip_chunk (d : MetadataDirectory)
    (hfit : (tiffBlob d).length < 2 ^ 32) :
    webpStripGo ((webpExifChunk d).length + 1) (webpExifChunk d) = .ok [] := by
  rw [webpExifChunk_shape]
  rw [webpStripGo_cons8]
  have hb := leVal4_writeLE32 (tiffBlob d).length hfit
  simp only [leVal4] at hb ⊢
  rw [hb]
  rw [if_neg (by rw [webp_padded_length]; omega)]
  rw [if_pos (show [69, 88, 73, 70] = webpExifTag by rfl)]
  rw [List.drop_eq_nil_of_le (by rw [webp_padded_length])]
  exact webpStripGo_nil _ (by simp only [List.length_cons]; omega)

/-- The WEBP half of the replace invariant: embedding `d2` into a buffer
that already carries an embedded directory `d1` yields a buffer whose
extracted directory is exactly `d2` and which carries exactly one EXIF
sub-chunk. -/
theorem webp_replace_ok (buf : List Nat) (d1 d2 : MetadataDirectory)
    (out1 out2 : List Nat) (hwf : dirWfB d2 = true)
    (h1 : webpEmbed buf d1 = .ok out1) (h2 : webpEmbed out1 d2 = .ok out2) :
    webpExtract out2 = some d2 ∧ webpCountExif out2 = 1 := by
  obtain ⟨hframe1, s1, hst1, hfitTot1, hfitLen1, hout1⟩ :=
    webpEmbed_ok_elim buf d1 out1 h1
  obtain ⟨hframe2, s2, hst2, hfitTot2, hfitLen2, hout2⟩ :=
    webpEmbed_ok_elim out1 d2 out2 h2
  obtain ⟨hle1, happ1, hfind1, hcnt1⟩ := webpStripGo_spec _ _ _ hst1
  have hout1R : out1 = riffTag
      ++ (writeLE32 (4 + (s1 ++ webpExifChunk d1).length)
        ++ (webpTag ++ (s1 ++ webpExifChunk d1))) := by
    rw [hout1]
    simp [List.append_assoc]
  have hdrop12 : out1.drop 12 = s1 ++ webpExifChunk d1 := by
    rw [hout1R]
    rfl
  have hlen1 : out1.length = 12 + (s1 ++ webpExifChunk d1).length := by
    rw [hout1R]
    simp only [List.length_append, writeLE32_length, riffTag_length,
      webpTag_length]
    omega
  have hstrip2' : webpStripGo (out1.length + 1) (out1.drop 12) = .ok s1 := by
    rw [hdrop12]
    have := happ1 (out1.length + 1) (webpExifChunk d1) []
      (by rw [hlen1]; omega)
      (webpStrip_chunk d1 hfitLen1)
    rw [List.append_nil] at this
    exact this
  have hs2 : s2 = s1 := by
    rw [hstrip2'] at hst2
    injection hst2 with h
    exact h.symm
  rw [hs2] at hout2
  have hout2R : out2 = riffTag
      ++ (writeLE32 (4 + (s1 ++ webpExifChunk d2).length)
        ++ (webpTag ++ (s1 ++ webpExifChunk d2))) := by
    rw [hout2]
    simp [List.append_assoc]
  have hdrop12_2 : out2.drop 12 = s1 ++ webpExifChunk d2 := by
    rw [hout2R]
    rfl
  have hlen2 : out2.length = 12 + (s1 ++ webpExifChunk d2).length := by
    rw [hout2R]
    simp only [List.length_append, writeLE32_length, riffTag_length,
      webpTag_length]
    omega
  have hframe2' : out2.take 4 = riffTag ∧ (out2.drop 8).take 4 = webpTag
      ∧ 12 ≤ out2.length := by
    refine ⟨?_, ?_, ?_⟩
    · rw [hout2R]
      exact List.take_left' riffTag_length
    · rw [hout2R]
      rfl
    · rw [hlen2]
      omega
  have hchunk2strip : webpFindGo ((webpExifChunk d2).length + 1)
      (webpExifChunk d2) = some (tiffBlob d2) := by
    rw [webpExifChunk_shape]
    rw [webpFindGo_cons8]
    have hb := leVal4_writeLE32 (tiffBlob d2).length hfitLen2
    simp only [leVal4] at hb ⊢
    rw [hb]
    rw [if_neg (by rw [webp_padded_length]; omega)]
    rw [if_pos (show [69, 88, 73, 70] = webpExifTag by rfl)]
    rw [List.take_append_of_le_length (Nat.le_refl _), List.take_length]
  constructor
  · unfold webpExtract
    rw [if_pos hframe2']
    rw [hdrop12_2]
    rw [hfind1 (out2.length + 1) (webpExifChunk d2) (by rw [hlen2]; omega)]
    rw [hchunk2strip, optionBind_some]
    exact parseTiffBlob_roundtrip d2 hwf
  · unfold webpCountExif
    rw [if_pos hframe2']
    rw [hdrop12_2]
    rw [hcnt1 (out2.length + 1) (webpExifChunk d2) (by rw [hlen2]; omega)]
    rw [webpExifChunk_shape, webpCountGo_cons8]
    have hb := leVal4_writeLE32 (tiffBlob d2).length hfitLen2
    simp only [leVal4] at hb ⊢
    rw [hb]
    rw [if_neg (by rw [webp_padded_length]; omega)]
    rw [if_pos (show [69, 88, 73, 70] = webpExifTag by rfl)]
    rw [List.drop_eq_nil_of_le (by rw [webp_padded_length])]
    rw [webpCountGo_nil]


/-! ### GeotagPipeline lemmas -/

/-- Mapping the error of an `Except.error` applies the translation. -/
theorem mapError_error {ε ε' α : Type _} (f : ε → ε') (e : ε) :
    (Except.error e : Except ε α).mapError f = .error (f e) := rfl

/-- Mapping the error of an `Except.ok` is the identity. -/
theorem mapError_ok {ε ε' α : Type _} (f : ε → ε') (a : α) :
    (Except.ok a : Except ε α).mapError f = .ok a := rfl

/-- The pipeline runs its stages in the specification's order, aborting
at the first failure. -/
theorem run_eq
    (codec : List Nat → ContainerKind → ContainerKind →
      Except PipelineError (List Nat))
    (img : List Nat) (c : Coordinate) (t : ContainerKind) :
    GeotagPipeline.run codec img c t =
      match toDMS c.latitude .lat with
      | .error _ => .error .invalidCoordinate
      | .ok latR =>
        match toDMS c.longitude .lon with
        | .error _ => .error .invalidCoordinate
        | .ok lonR =>
          match detectKind img with
          | .error e => .error e
          | .ok k =>
            match codec img k t with
            | .error e => .error e
            | .ok b =>
              (embedFor t b
                (buildGpsDirectory latR.1 latR.2 lonR.1 lonR.2)).mapError
                EmbedError.toPipelineError := by
  unfold GeotagPipeline.run
  cases hlat : toDMS c.latitude .lat with
  | error e => rw [mapError_error, exceptBind_error]
  | ok latR =>
    rw [mapError_ok, exceptBind_ok]
    cases hlon : toDMS c.longitude .lon with
    | error e => rw [mapError_error, exceptBind_error]
    | ok lonR =>
      rw [mapError_ok, exceptBind_ok]
      cases hdet : detectKind img with
      | error e => rw [exceptBind_error]
      | ok k =>
        rw [exceptBind_ok]
        cases hcod : codec img k t with
        | error e =>
          rw [exceptBind_error]
          dsimp only
          rw [hcod]
        | ok b =>
          rw [exceptBind_ok]
          dsimp only
          rw [hcod]


/-! ### Frontend lemmas -/

/-- The JavaScript trim yields the empty string exactly on whitespace-only
(or empty) input. -/
theorem jsTrim_eq_nil_iff (l : List Char) :
    jsTrim l = [] ↔ ∀ c ∈ l, c.isWhitespace = true := by
  unfold jsTrim
  rw [List.reverse_eq_nil_iff, List.dropWhile_eq_nil_iff]
  constructor
  · intro h c hc
    have hc' : c ∈ l.takeWhile Char.isWhitespace ++ l.dropWhile Char.isWhitespace := by
      rw [List.takeWhile_append_dropWhile Char.isWhitespace l]
      exact hc
    rcases List.mem_append.mp hc' with hmem | hmem
    · exact List.mem_takeWhile_imp hmem
    · exact h c (List.mem_reverse.mpr hmem)
  · intro h c hc
    apply h
    have hsub : c ∈ l.dropWhile Char.isWhitespace := List.mem_reverse.mp hc
    rw [← List.takeWhile_append_dropWhile Char.isWhitespace l]
    exact List.mem_append_right _ hsub


/-- The split `splitOnChar` never returns an empty list of fields. -/
theorem splitOnChar_ne_nil (sep : Char) (l : List Char) :
    splitOnChar sep l ≠ [] := by
  induction l with
  | nil => simp [splitOnChar]
  | cons c cs ih =>
    by_cases hc : c = sep
    · simp [splitOnChar, hc]
    · rw [splitOnChar, if_neg hc]
      match hrec : splitOnChar sep cs with
      | [] => simp
      | h :: t => simp

/-- The first field of a JavaScript split is the prefix before the first
separator. -/
theorem splitOnChar_headD (sep : Char) (l : List Char) :
    (splitOnChar sep l).headD [] = l.takeWhile (fun c => c != sep) := by
  induction l with
  | nil => rfl
  | cons c cs ih =>
    by_cases hc : c = sep
    · subst hc
      rw [splitOnChar, if_pos rfl]
      simp [List.takeWhile]
    · rw [splitOnChar, if_neg hc]
      match hrec : splitOnChar sep cs with
      | [] => exact absurd hrec (splitOnChar_ne_nil sep cs)
      | h :: t =>
        rw [hrec] at ih
        simp only [List.headD_cons] at ih ⊢
        rw [List.takeWhile_cons_of_pos (by simp [hc])]
        rw [ih]


/-! ### Claim theorems -/

/-- C1: for every container strategy (JPEG, PNG, WEBP) and every input
buffer on which embed succeeds, every length/size field written into the
output buffer — the JPEG APP1 segment length, the PNG chunk length, the
WEBP RIFF total size and the appended sub-chunk length — equals the
actual measured byte length of the payload it describes. -/
theorem embed_length_fields (buf : List Nat) (d : MetadataDirectory)
    (out : List Nat) :
    (jpegEmbed buf d = .ok out →
      readBE16 out 4 = (app1Payload d).length + 2 ∧
      (out.drop 6).take (readBE16 out 4 - 2) = app1Payload d ∧
      ∃ rest, stripSegs (buf.drop 2) = .ok rest ∧
        out.drop (4 + readBE16 out 4) = rest) ∧
    (pngEmbed buf d = .ok out →
      readBE32 out 33 = (tiffBlob d).length ∧
      (out.drop 41).take (readBE32 out 33) = tiffBlob d ∧
      ∃ rest, pngStripGo ((buf.drop 8).length + 1) ((buf.drop 8).drop 25)
          = .ok rest ∧
        out.drop (45 + readBE32 out 33) = rest) ∧
    (webpEmbed buf d = .ok out →
      readLE32 out 4 = out.length - 8 ∧
      ∃ rest, webpStripGo (buf.length + 1) (buf.drop 12) = .ok rest ∧
        readLE32 out (16 + rest.length) = (tiffBlob d).length ∧
        (out.drop (20 + rest.length)).take ((tiffBlob d).length) = tiffBlob d) :=
  ⟨fun h => jpeg_length_field_ok buf d out h,
   fun h => png_length_field_ok buf d out h,
   fun h => webp_length_field_ok buf d out h⟩

/-- Concrete instance of C1: the three recorded length fields on the
demonstration embeds, read back from the output bytes, equal the
measured payload lengths. -/
theorem embed_length_fields_witness :
    readBE16 demoJpegOut 4 = (app1Payload demoDir).length + 2 ∧
    readBE32 demoPngOut 33 = (tiffBlob demoDir).length ∧
    readLE32 demoWebpOut 4 = demoWebpOut.length - 8 :=
  ⟨((embed_length_fields demoJpeg demoDir demoJpegOut).1 (by rfl)).1,
   ((embed_length_fields demoPng demoDir demoPngOut).2.1 (by rfl)).1,
   ((embed_length_fields demoWebp demoDir demoWebpOut).2.2 (by rfl)).1⟩

/-- C2: for each container strategy, embed is idempotent-on-replace —
embedding `d2` into a buffer that already carries an embedded directory
`d1` yields a buffer whose extracted metadata directory equals `d2`
exactly (no merge of `d1`'s entries) and which carries exactly one
metadata block (no duplication). -/
theorem embed_idempotent_on_replace (buf : List Nat)
    (d1 d2 : MetadataDirectory) (out1 out2 : List Nat)
    (hwf : dirWfB d2 = true) :
    (jpegEmbed buf d1 = .ok out1 → jpegEmbed out1 d2 = .ok out2 →
      jpegExtract out2 = some d2 ∧ jpegCountExif out2 = 1) ∧
    (pngEmbed buf d1 = .ok out1 → pngEmbed out1 d2 = .ok out2 →
      pngExtract out2 = some d2 ∧ pngCountExif out2 = 1) ∧
    (webpEmbed buf d1 = .ok out1 → webpEmbed out1 d2 = .ok out2 →
      webpExtract out2 = some d2 ∧ webpCountExif out2 = 1) :=
  ⟨fun h1 h2 => jpeg_replace_ok buf d1 d2 out1 out2 hwf h1 h2,
   fun h1 h2 => png_replace_ok buf d1 d2 out1 out2 hwf h1 h2,
   fun h1 h2 => webp_replace_ok buf d1 d2 out1 out2 hwf h1 h2⟩

/-- Concrete instance of C2: re-embedding the second demonstration
directory over already-embedded buffers extracts exactly that second
directory in all three containers. -/
theorem embed_idempotent_on_replace_witness :
    jpegExtract demoJpegOut2 = some demoDir2 ∧
    pngExtract demoPngOut2 = some demoDir2 ∧
    webpExtract demoWebpOut2 = some demoDir2 :=
  ⟨((embed_idempotent_on_replace demoJpeg demoDir demoDir2 demoJpegOut
      demoJpegOut2 (by decide)).1 (by rfl) (by rfl)).1,
   ((embed_idempotent_on_replace demoPng demoDir demoDir2 demoPngOut
      demoPngOut2 (by decide)).2.1 (by rfl) (by rfl)).1,
   ((embed_idempotent_on_replace demoWebp demoDir demoDir2 demoWebpOut
      demoWebpOut2 (by decide)).2.2 (by rfl) (by rfl)).1⟩


/-- C6: the pipeline is all-or-nothing — a run returns the complete
final byte buffer exactly when every stage (coordinate validation,
source detection, transcode, directory build, embed) succeeds, and
otherwise aborts at the first failing stage, returning that stage's
error value and no partial bytes. -/
theorem pipeline_run_all_or_nothing
    (codec : List Nat → ContainerKind → ContainerKind →
      Except PipelineError (List Nat))
    (img : List Nat) (c : Coordinate) (t : ContainerKind) :
    (∀ out, GeotagPipeline.run codec img c t = .ok out ↔
      ∃ latD latR lonD lonR k b,
        toDMS c.latitude .lat = .ok (latD, latR) ∧
        toDMS c.longitude .lon = .ok (lonD, lonR) ∧
        detectKind img = .ok k ∧
        codec img k t = .ok b ∧
        embedFor t b (buildGpsDirectory latD latR lonD lonR) = .ok out) ∧
    (toDMS c.latitude .lat = .error .invalidCoordinate →
      GeotagPipeline.run codec img c t = .error .invalidCoordinate) ∧
    (∀ p, toDMS c.latitude .lat = .ok p →
      toDMS c.longitude .lon = .error .invalidCoordinate →
      GeotagPipeline.run codec img c t = .error .invalidCoordinate) ∧
    (∀ p q e, toDMS c.latitude .lat = .ok p →
      toDMS c.longitude .lon = .ok q → detectKind img = .error e →
      GeotagPipeline.run codec img c t = .error e) ∧
    (∀ p q k e, toDMS c.latitude .lat = .ok p →
      toDMS c.longitude .lon = .ok q → detectKind img = .ok k →
      codec img k t = .error e →
      GeotagPipeline.run codec img c t = .error e) ∧
    (∀ p q k b e, toDMS c.latitude .lat = .ok p →
      toDMS c.longitude .lon = .ok q → detectKind img = .ok k →
      codec img k t = .ok b →
      embedFor t b (buildGpsDirectory p.1 p.2 q.1 q.2) = .error e →
      GeotagPipeline.run codec img c t = .error e.toPipelineError) := by
  refine ⟨fun out => ⟨fun h => ?_, fun h => ?_⟩,
    fun hlat => ?_, fun p hlat hlon => ?_, fun p q e hlat hlon hdet => ?_,
    fun p q k e hlat hlon hdet hcod => ?_,
    fun p q k b e hlat hlon hdet hcod hemb => ?_⟩
  · rw [run_eq] at h
    cases hlat : toDMS c.latitude .lat with
    | error e0 =>
      rw [hlat] at h
      simp at h
    | ok p =>
      rw [hlat] at h
      cases hlon : toDMS c.longitude .lon with
      | error e0 =>
        rw [hlon] at h
        simp at h
      | ok q =>
        rw [hlon] at h
        cases hdet : detectKind img with
        | error e0 =>
          rw [hdet] at h
          simp at h
        | ok k =>
          rw [hdet] at h
          dsimp only at h
          cases hcod : codec img k t with
          | error e0 =>
            rw [hcod] at h
            simp at h
          | ok b =>
            rw [hcod] at h
            dsimp only at h
            cases hemb : embedFor t b (buildGpsDirectory p.1 p.2 q.1 q.2) with
            | error e0 =>
              rw [hemb, mapError_error] at h
              exact absurd h (by simp)
            | ok b' =>
              rw [hemb, mapError_ok] at h
              injection h with h
              subst h
              exact ⟨p.1, p.2, q.1, q.2, k, b, rfl, rfl, rfl, hcod, hemb⟩
  · obtain ⟨latD, latR, lonD, lonR, k, b, h1, h2, h3, h4, h5⟩ := h
    rw [run_eq, h1, h2, h3]
    dsimp only
    rw [h4]
    dsimp only
    rw [h5, mapError_ok]
  · rw [run_eq, hlat]
  · rw [run_eq, hlat, hlon]
  · rw [run_eq, hlat, hlon, hdet]
  · rw [run_eq, hlat, hlon, hdet]
    dsimp only
    rw [hcod]
  · rw [run_eq, hlat, hlon, hdet]
    dsimp only
    rw [hcod]
    dsimp only
    rw [hemb, mapError_error]

/-- Concrete instance of C6: an out-of-range latitude aborts the
pipeline with `InvalidCoordinate` before any later stage runs. -/
theorem pipeline_run_all_or_nothing_witness :
    GeotagPipeline.run (fun _ _ _ => .ok demoPng) demoJpeg ⟨91, 0⟩ .png
      = .error .invalidCoordinate :=
  (pipeline_run_all_or_nothing (fun _ _ _ => .ok demoPng) demoJpeg ⟨91, 0⟩
      .png).2.1
    (by
      rw [toDMS_lat_eq, abs_of_pos (by norm_num : (0 : ℚ) < 91),
        if_pos (by norm_num : (90 : ℚ) < 91)])


/-- C7: the set of selectable output container formats is fixed and
exactly {jpeg, png, webp} — every format value the client can construct
is one of these three, and the `FormatSelector` offers exactly these
three choices in order. -/
theorem output_formats_closed_set :
    (∀ f : OutputFormat, f = .jpeg ∨ f = .png ∨ f = .webp) ∧
    formats.map FormatChoice.value = [.jpeg, .png, .webp] ∧
    formats.length = 3 := by
  refine ⟨fun f => ?_, rfl, rfl⟩
  cases f
  · exact Or.inl rfl
  · exact Or.inr (Or.inl rfl)
  · exact Or.inr (Or.inr rfl)

/-- C8: `handleProcess` never calls the processing api with missing
inputs — whenever the selected image is null or the address is empty or
whitespace-only, it returns early with the validation message set and
every other piece of state unchanged. -/
theorem handleProcess_guard (s : HomeState)
    (r : Except (Option String) (List Nat))
    (h : s.selectedImage = none ∨ ∀ c ∈ s.address, c.isWhitespace = true) :
    handleProcess s r = .earlyReturn { s with error := some missingInputMsg } := by
  unfold handleProcess
  rw [if_pos ?hc]
  case hc =>
    rcases h with h | h
    · rw [h]
      rfl
    · rw [(jsTrim_eq_nil_iff s.address).mpr h]
      simp [Option.isNone]

/-- Concrete instance of C8: a state with no selected image returns
early with the validation message. -/
theorem handleProcess_guard_witness :
    handleProcess ⟨none, [], .jpeg, false, none, none, false⟩ (.ok [1, 2])
      = .earlyReturn ⟨none, [], .jpeg, false, none,
          some missingInputMsg, false⟩ :=
  handleProcess_guard ⟨none, [], .jpeg, false, none, none, false⟩ (.ok [1, 2])
    (Or.inl rfl)


/-- C9: the auto-download file name of every successful processing run
is the selected file's name truncated at the first dot, then `_gps.` and
the chosen format string; a source name with several dots keeps only the
prefix before the first one, and a leading-dot name yields an empty base
name. -/
theorem download_filename :
    (∀ (name : List Char) (fmt : OutputFormat),
      downloadName name fmt
        = name.takeWhile (fun c => c != '.') ++ "_gps.".toList ++ fmt.str) ∧
    (∀ (s : HomeState) (file : JSFile) (blob : List Nat),
      s.selectedImage = some file → (jsTrim s.address).isEmpty = false →
      handleProcess s (.ok blob)
        = .called
            { s with isProcessing := false, error := none,
                     success := true, processedBlob := some blob }
            (some (downloadName file.name s.format))) ∧
    (∀ (rest : List Char) (fmt : OutputFormat),
      downloadName ('.' :: rest) fmt = "_gps.".toList ++ fmt.str) := by
  refine ⟨fun name fmt => ?_, fun s file blob hfile htrim => ?_,
    fun rest fmt => ?_⟩
  · unfold downloadName
    rw [splitOnChar_headD]
  · unfold handleProcess
    rw [hfile, htrim]
    simp
  · unfold downloadName
    rw [splitOnChar, if_pos rfl]
    rfl

/-- Concrete instance of C9: a leading-dot file name produces an empty
base name in the triggered download. -/
theorem download_filename_witness :
    handleProcess
        ⟨some ⟨".hidden".toList, "image/png".toList⟩, "Paris".toList,
          .png, false, none, none, false⟩ (.ok [7])
      = .called
          ⟨some ⟨".hidden".toList, "image/png".toList⟩, "Paris".toList,
            .png, false, some [7], none, true⟩
          (some ("_gps.png".toList)) :=
  download_filename.2.1
    ⟨some ⟨".hidden".toList, "image/png".toList⟩, "Paris".toList,
      .png, false, none, none, false⟩
    ⟨".hidden".toList, "image/png".toList⟩ [7] rfl (by decide)

/-- C10: a drag-and-drop selects exactly the first dropped file whose
MIME type starts with `image/`, and a drop with no such file leaves the
selection unchanged and never calls `onImageSelected`. -/
theorem handleDrop_first_image :
    (∀ (files : List JSFile) (cur : Option JSFile),
      (∀ f ∈ files, isImageFile f = false) →
      handleDrop files cur = (cur, false)) ∧
    (∀ (pre : List JSFile) (f : JSFile) (post : List JSFile)
        (cur : Option JSFile),
      isImageFile f = true → (∀ g ∈ pre, isImageFile g = false) →
      handleDrop (pre ++ f :: post) cur = (some f, true)) := by
  constructor
  · intro files cur h
    unfold handleDrop
    rw [List.find?_eq_none.mpr (fun x hx => by rw [h x hx]; simp)]
  · intro pre f post cur hf hpre
    unfold handleDrop
    have hfind : (pre ++ f :: post).find? isImageFile = some f := by
      induction pre with
      | nil => exact List.find?_cons_of_pos _ hf
      | cons g gs ih =>
        rw [List.cons_append,
          List.find?_cons_of_neg _ (by
            rw [hpre g (List.mem_cons_self g gs)]
            simp)]
        exact ih (fun x hx => hpre x (List.mem_cons_of_mem g hx))
    rw [hfind]

/-- Concrete instance of C10: among a text file followed by two images,
the drop selects the first image. -/
theorem handleDrop_first_image_witness :
    handleDrop
        [⟨"a.txt".toList, "text/plain".toList⟩,
         ⟨"b.png".toList, "image/png".toList⟩,
         ⟨"c.jpg".toList, "image/jpeg".toList⟩] none
      = (some ⟨"b.png".toList, "image/png".toList⟩, true) :=
  handleDrop_first_image.2
    [⟨"a.txt".toList, "text/plain".toList⟩]
    ⟨"b.png".toList, "image/png".toList⟩
    [⟨"c.jpg".toList, "image/jpeg".toList⟩] none (by decide) (by decide)

end ExifTool
